import Mathlib

/-!
# PostQuantumEVM blockchain-core: a shallow embedding in Lean 4

This file embeds the consensus engine of the `blockchain-core` crate
(`src/blockchain-core/src`): the `Block` data model, the consensus
algorithms (Proof of Work, Proof of Stake, Proof of Authority, Proof of
History, Proof of Burn, and practical Byzantine fault tolerance) and the
`Blockchain` engine (`new_with_consensus`, `add_block`, `is_valid`), and
proves or refutes the specification's testable properties about them.

Modelling conventions:
* Rust `u64`/`usize` values are modelled as `Nat`, `i64` as `Int`
  (no arithmetic in the embedded code paths can overflow 64 bits:
  nonces are either small counters, SHA-256 16-hex-digit prefixes
  `< 2^64`, or list indices).
* SHA-256 is implemented concretely over byte lists, so digests of
  concrete inputs compute inside the kernel.
* Rust's unbounded `loop` in proof-of-work mining becomes structural
  recursion on an explicit fuel parameter; exhausting the fuel returns
  `none` and models non-termination of the search.
* Wall-clock quantities (`Instant`, `Duration`, execution times) and the
  string-keyed proof-metadata maps (whose values include formatted
  floating-point numbers and are never read back by any consensus,
  validation or engine decision) are outside the embedding.
* `f64`/`f32` values that do flow into control decisions are modelled as
  `ℚ` (`fault_tolerance`, stakes weighted by reputation, burn decay);
  the `rand::StdRng` draw in stake/burn selection is abstracted as an
  explicit function argument from the seed string to a rational in
  `[0,1)`, which is exactly the determinism the code relies on.
-/

namespace Sha256

/-- Truncate to a 32-bit word, as every addition in SHA-256 does. -/
def mask32 (n : Nat) : Nat := n % 4294967296

/-- Right rotation of a 32-bit word. -/
def rotr (k n : Nat) : Nat := mask32 ((n >>> k) ||| (n <<< (32 - k)))

/-- Bitwise complement within 32 bits. -/
def not32 (n : Nat) : Nat := n ^^^ 4294967295

def ch (x y z : Nat) : Nat := (x &&& y) ^^^ (not32 x &&& z)

def maj (x y z : Nat) : Nat := (x &&& y) ^^^ (x &&& z) ^^^ (y &&& z)

def bigSigma0 (n : Nat) : Nat := rotr 2 n ^^^ rotr 13 n ^^^ rotr 22 n

def bigSigma1 (n : Nat) : Nat := rotr 6 n ^^^ rotr 11 n ^^^ rotr 25 n

def smallSigma0 (n : Nat) : Nat := rotr 7 n ^^^ rotr 18 n ^^^ (n >>> 3)

def smallSigma1 (n : Nat) : Nat := rotr 17 n ^^^ rotr 19 n ^^^ (n >>> 10)

/-- The 64 SHA-256 round constants. -/
def roundK : List Nat :=
  [1116352408, 1899447441, 3049323471, 3921009573, 961987163,
   1508970993, 2453635748, 2870763221, 3624381080, 310598401,
   607225278, 1426881987, 1925078388, 2162078206, 2614888103,
   3248222580, 3835390401, 4022224774, 264347078, 604807628,
   770255983, 1249150122, 1555081692, 1996064986, 2554220882,
   2821834349, 2952996808, 3210313671, 3336571891, 3584528711,
   113926993, 338241895, 666307205, 773529912, 1294757372,
   1396182291, 1695183700, 1986661051, 2177026350, 2456956037,
   2730485921, 2820302411, 3259730800, 3345764771, 3516065817,
   3600352804, 4094571909, 275423344, 430227734, 506948616,
   659060556, 883997877, 958139571, 1322822218, 1537002063,
   1747873779, 1955562222, 2024104815, 2227730452, 2361852424,
   2428436474, 2756734187, 3204031479, 3329325298]

/-- The initial hash state. -/
def initH : List Nat :=
  [1779033703, 3144134277, 1013904242, 2773480762,
   1359893119, 2600822924, 528734635, 1541459225]

/-- The eight big-endian bytes of the 64-bit message bit length. -/
def lenBytes (bitLen : Nat) : List Nat :=
  [(bitLen >>> 56) % 256, (bitLen >>> 48) % 256, (bitLen >>> 40) % 256,
   (bitLen >>> 32) % 256, (bitLen >>> 24) % 256, (bitLen >>> 16) % 256,
   (bitLen >>> 8) % 256, bitLen % 256]

/-- SHA-256 padding: a `0x80` byte, zeros to 56 mod 64, then the length. -/
def pad (msg : List Nat) : List Nat :=
  let zeros := (119 - msg.length % 64) % 64
  msg ++ 0x80 :: List.replicate zeros 0 ++ lenBytes (8 * msg.length)

/-- Big-endian 32-bit words from a byte list. -/
def toWords : List Nat → List Nat
  | a :: b :: c :: d :: rest => (((a * 256 + b) * 256 + c) * 256 + d) :: toWords rest
  | _ => []

/-- Extend the 16 block words with `fuel` further schedule words. -/
def extendLoop : Nat → List Nat → List Nat
  | 0, w => w
  | n + 1, w =>
    let i := w.length
    let nw := mask32 (smallSigma1 (w.getD (i - 2) 0) + w.getD (i - 7) 0 +
      smallSigma0 (w.getD (i - 15) 0) + w.getD (i - 16) 0)
    extendLoop n (w ++ [nw])

/-- One compression round on the state `[a,b,c,d,e,f,g,h]`. -/
def round (state : List Nat) (kw : Nat) : List Nat :=
  match state with
  | [a, b, c, d, e, f, g, h] =>
    let t1 := mask32 (h + bigSigma1 e + ch e f g + kw)
    let t2 := mask32 (bigSigma0 a + maj a b c)
    [mask32 (t1 + t2), a, b, c, mask32 (d + t1), e, f, g]
  | s => s

/-- Compress one 64-byte block (given as its 16 words) into the state. -/
def compress (hs : List Nat) (block16 : List Nat) : List Nat :=
  let w := extendLoop 48 block16
  let kws := List.zipWith (fun ki wi => mask32 (ki + wi)) roundK w
  let fin := kws.foldl round hs
  List.zipWith (fun x y => mask32 (x + y)) hs fin

/-- Fold the compression function over consecutive 64-byte blocks.  The
first argument bounds the number of blocks; `sha256Hex` passes enough
for the whole padded message, so the `0` case is never reached there. -/
def processBlocks (hs : List Nat) : Nat → List Nat → List Nat
  | 0, _ => hs
  | _ + 1, [] => hs
  | fuel + 1, b :: rest =>
    processBlocks (compress hs (toWords ((b :: rest).take 64))) fuel ((b :: rest).drop 64)

/-- A hex digit character, lowercase as Rust's `{:x}` renders it. -/
def hexChar (n : Nat) : Char :=
  if n < 10 then Char.ofNat (48 + n) else Char.ofNat (87 + n)

/-- The eight hex digits of one 32-bit word, most significant first. -/
def wordHex (n : Nat) : List Char :=
  [hexChar ((n >>> 28) % 16), hexChar ((n >>> 24) % 16), hexChar ((n >>> 20) % 16),
   hexChar ((n >>> 16) % 16), hexChar ((n >>> 12) % 16), hexChar ((n >>> 8) % 16),
   hexChar ((n >>> 4) % 16), hexChar (n % 16)]

/-- SHA-256 of a byte list, rendered as the 64-character lowercase hex
string that `format!("{:x}", hasher.finalize())` produces. -/
def sha256Hex (msg : List Nat) : String :=
  let padded := pad msg
  String.mk (((processBlocks initH (padded.length / 64 + 1) padded).map wordHex).flatten)

end Sha256

/-- The UTF-8 bytes of one character. -/
def charUtf8 (c : Char) : List Nat :=
  let n := c.toNat
  if n < 128 then [n]
  else if n < 2048 then [192 + n / 64, 128 + n % 64]
  else if n < 65536 then [224 + n / 4096, 128 + (n / 64) % 64, 128 + n % 64]
  else [240 + n / 262144, 128 + (n / 4096) % 64, 128 + (n / 64) % 64, 128 + n % 64]

/-- The UTF-8 bytes of a string, as `hasher.update(s)` consumes them. -/
def strBytes (s : String) : List Nat :=
  (s.data.map charUtf8).flatten

/-- SHA-256 of a string's UTF-8 bytes as a lowercase hex string: the
`Sha256::new(); update(s); format!("{:x}", finalize())` idiom. -/
def sha256String (s : String) : String :=
  Sha256.sha256Hex (strBytes s)

/-- SHA-256 of the standard test vector, pinning the implementation. -/
theorem sha256String_abc : sha256String "abc" =
    "ba7816bf8f01cfea414140de5dae2223b00361a396177a9cb410ff61f20015ad" := by decide

/-- Decidable equality for Rust `Result`-modelling `Except` values, so
concrete runs can be checked by `decide`. -/
instance {e a : Type} [DecidableEq e] [DecidableEq a] : DecidableEq (Except e a) :=
  fun x y =>
  match x, y with
  | .error e1, .error e2 =>
    if h : e1 = e2 then .isTrue (congrArg Except.error h)
    else .isFalse (fun hc => h (Except.error.inj hc))
  | .ok a1, .ok a2 =>
    if h : a1 = a2 then .isTrue (congrArg Except.ok h)
    else .isFalse (fun hc => h (Except.ok.inj hc))
  | .error _, .ok _ => .isFalse (fun hc => Except.noConfusion hc)
  | .ok _, .error _ => .isFalse (fun hc => Except.noConfusion hc)

/-- Value of a hex digit character, as `u64::from_str_radix(_, 16)` reads
one (digits, lowercase and uppercase letters). -/
def hexDigitVal (c : Char) : Option Nat :=
  if 48 ≤ c.toNat ∧ c.toNat ≤ 57 then some (c.toNat - 48)
  else if 97 ≤ c.toNat ∧ c.toNat ≤ 102 then some (c.toNat - 87)
  else if 65 ≤ c.toNat ∧ c.toNat ≤ 70 then some (c.toNat - 55)
  else none

def parseHexChars : List Char → Nat → Option Nat
  | [], acc => some acc
  | c :: rest, acc =>
    match hexDigitVal c with
    | some d => parseHexChars rest (acc * 16 + d)
    | none => none

/-- Model of `u64::from_str_radix(s, 16)`: `none` on an empty string or a
non-hex character.  (The `u64` overflow error cannot arise at the one call
site, which passes exactly 16 hex digits.) -/
def fromStrRadix16 (s : String) : Option Nat :=
  match s.data with
  | [] => none
  | cs => parseHexChars cs 0

/-- Model of `format!("{:016x}", n)`: lowercase hex, left-padded with
zeros to at least 16 characters. -/
def hexPad16 (n : Nat) : String :=
  let digits := Nat.toDigits 16 n
  String.mk (List.replicate (16 - digits.length) '0' ++ digits)

/-- Rust's `"0".repeat(difficulty)` target string. -/
def zeroTarget (d : Nat) : String := String.mk (List.replicate d '0')

/-- Stand-in for Rust's `f64` `Display` on a rational-modelled float.  It
only ever feeds hash preimages whose exact text no theorem depends on. -/
def ratStr (q : ℚ) : String := toString q

/-- `Block` (`src/block.rs`).  `consensus_data` — a string map written by
`set_consensus_data` and never read by any consensus, validation or
engine decision — is outside the embedding; `Block::new` takes the
creation time (`Utc::now().timestamp()` in Rust) as an argument. -/
structure Block where
  index : Nat
  timestamp : Int
  data : String
  previous_hash : String
  hash : String
  nonce : Nat
  difficulty : Nat
deriving Repr, DecidableEq

/-- `Block::new`: empty hash, nonce 0, default difficulty 4. -/
def Block.new (index : Nat) (data : String) (previous_hash : String)
    (timestamp : Int) : Block :=
  { index := index, timestamp := timestamp, data := data,
    previous_hash := previous_hash, hash := "", nonce := 0, difficulty := 4 }

/-- `ConsensusResult` (`consensus/traits.rs`): the finalized block and the
estimated energy cost.  The wall-clock `execution_time` and the
`proof_data` string map (never read back by the engine's decisions) are
outside the embedding. -/
structure ConsensusResult where
  block : Block
  energy_cost : Option ℚ
deriving Repr, DecidableEq

/-- `ProofOfWork` (`consensus/pow.rs`); `target_time` in seconds. -/
structure ProofOfWork where
  difficulty : Nat
  target_time : Nat
deriving Repr, DecidableEq

/-- `ProofOfWork::new`: 60-second default target time. -/
def ProofOfWork.new (difficulty : Nat) : ProofOfWork :=
  { difficulty := difficulty, target_time := 60 }

/-- `ProofOfWork::calculate_hash`: SHA-256 over the formatted
concatenation of the block fields, the candidate nonce and the
difficulty. -/
def ProofOfWork.calculate_hash (s : ProofOfWork) (b : Block) (nonce : Nat) : String :=
  sha256String (toString b.index ++ toString b.timestamp ++ b.data ++
    b.previous_hash ++ toString nonce ++ toString s.difficulty)

/-- The body of `ProofOfWork::mine_block`'s unbounded `loop`, searching
nonces upward from `nonce`; `fuel` bounds the number of attempts and
`none` models a search that has not yet terminated. -/
def ProofOfWork.mine_from (s : ProofOfWork) (b : Block) (nonce : Nat) :
    Nat → Option (Nat × String)
  | 0 => none
  | fuel + 1 =>
    let hash := s.calculate_hash b nonce
    if hash.take s.difficulty == zeroTarget s.difficulty then some (nonce, hash)
    else s.mine_from b (nonce + 1) fuel

/-- `ProofOfWork::mine_block`, starting from nonce 0. -/
def ProofOfWork.mine_block (s : ProofOfWork) (b : Block) (fuel : Nat) :
    Option (Nat × String) :=
  s.mine_from b 0 fuel

/-- `ProofOfWork::execute_consensus`: mine, then stamp nonce, hash and
difficulty into the block; energy is `nonce × 0.0001`. -/
def ProofOfWork.execute_consensus (s : ProofOfWork) (b : Block) (fuel : Nat) :
    Option ConsensusResult :=
  (s.mine_block b fuel).map fun p =>
    { block := { b with nonce := p.1, hash := p.2, difficulty := s.difficulty },
      energy_cost := some ((p.1 : ℚ) * (1 / 10000)) }

/-- `ProofOfWork::validate_block`: recompute the hash at the stored nonce
and require the zero prefix and exact equality with the stored hash. -/
def ProofOfWork.validate_block (s : ProofOfWork) (b : Block) : Bool :=
  let hash := s.calculate_hash b b.nonce
  hash.take s.difficulty == zeroTarget s.difficulty && hash == b.hash

/-- `ProofOfHistory` (`consensus/poh.rs`). -/
structure ProofOfHistory where
  vdf_iterations : Nat
  sequence_number : Nat
  previous_output : String
deriving Repr, DecidableEq

/-- `ProofOfHistory::new`: sequence 0, previous output `"genesis"`. -/
def ProofOfHistory.new (vdf_iterations : Nat) : ProofOfHistory :=
  { vdf_iterations := vdf_iterations, sequence_number := 0,
    previous_output := "genesis" }

/-- `ProofOfHistory::compute_vdf`: iterate SHA-256 `iterations` times. -/
def computeVdf (input : String) : Nat → String
  | 0 => input
  | n + 1 => computeVdf (sha256String input) n

/-- `ProofOfHistory::create_history_proof`: run the VDF on the previous
output and the block's pre-proof fields, advance the sequence number and
record the new output.  Returns (output, new sequence, new state). -/
def ProofOfHistory.create_history_proof (s : ProofOfHistory) (b : Block) :
    String × Nat × ProofOfHistory :=
  let input := s.previous_output ++ toString b.index ++ toString b.timestamp ++
    b.data ++ b.previous_hash
  let output := computeVdf input s.vdf_iterations
  (output, s.sequence_number + 1,
    { s with sequence_number := s.sequence_number + 1, previous_output := output })

/-- `ProofOfHistory::execute_consensus`: hash the block fields together
with the VDF output and sequence; the sequence becomes the nonce. -/
def ProofOfHistory.execute_consensus (s : ProofOfHistory) (b : Block) :
    ProofOfHistory × Except String ConsensusResult :=
  let p := s.create_history_proof b
  let h := sha256String (toString b.index ++ toString b.timestamp ++ b.data ++
    b.previous_hash ++ p.1 ++ toString p.2.1)
  (p.2.2, .ok { block := { b with hash := h, nonce := p.2.1 },
                energy_cost := some (1 / 100) })

/-- `ProofOfHistory::validate_block`: reject nonce 0, then compare against
a hash computed over the literal `"placeholder_history"` in place of the
real VDF output. -/
def ProofOfHistory.validate_block (_s : ProofOfHistory) (b : Block) : Bool :=
  if b.nonce == 0 then false
  else
    let expected := sha256String (toString b.index ++ toString b.timestamp ++
      b.data ++ b.previous_hash ++ "placeholder_history" ++ toString b.nonce)
    expected == b.hash

/-- `Validator` (`consensus/pos.rs`); reputation is an `f64` in Rust,
modelled as `ℚ` (only the value `1.0` is ever assigned). -/
structure Validator where
  address : String
  stake : Nat
  reputation : ℚ
deriving Repr, DecidableEq

/-- `ProofOfStake` (`consensus/pos.rs`). -/
structure ProofOfStake where
  validators : List Validator
  minimum_stake : Nat
  slashing_rate : ℚ
deriving Repr, DecidableEq

/-- `ProofOfStake::new`: no validators, 10% default slashing rate. -/
def ProofOfStake.new (minimum_stake : Nat) : ProofOfStake :=
  { validators := [], minimum_stake := minimum_stake, slashing_rate := 1 / 10 }

/-- `ProofOfStake::add_validator`: reject stakes below the minimum,
otherwise append a validator with reputation 1. -/
def ProofOfStake.add_validator (s : ProofOfStake) (address : String)
    (stake : Nat) : ProofOfStake × Except String Unit :=
  if stake < s.minimum_stake then
    (s, .error ("Stake " ++ toString stake ++ " is below minimum " ++
      toString s.minimum_stake))
  else
    ({ s with validators :=
        s.validators ++ [{ address := address, stake := stake, reputation := 1 }] },
     .ok ())

/-- The weighted-stake accumulation loop of `select_validator`: walk the
list adding `stake × reputation` until the cumulative weight covers the
drawn value. -/
def posScan : List Validator → ℚ → ℚ → Option Validator
  | [], _, _ => none
  | v :: rest, cum, rv =>
    let cum2 := cum + (v.stake : ℚ) * v.reputation
    if rv ≤ cum2 then some v else posScan rest cum2 rv

/-- `ProofOfStake::select_validator`.  `draw` abstracts
`StdRng::from_seed(sha256(previous_hash)).random::<f64>()` — the
deterministic map from the previous-hash seed to a value in `[0,1)`;
the weighted `f64` arithmetic is carried out in `ℚ`. -/
def ProofOfStake.select_validator (draw : String → ℚ) (s : ProofOfStake)
    (b : Block) : Option Validator :=
  if s.validators.isEmpty then none
  else
    let total := (s.validators.map fun v => (v.stake : ℚ) * v.reputation).sum
    if total == 0 then none
    else
      let randomValue := draw b.previous_hash * total
      match posScan s.validators 0 randomValue with
      | some v => some v
      | none => s.validators.getLast?

/-- `ProofOfStake::create_block_signature`: SHA-256 over the block fields
and the validator's address and stake. -/
def ProofOfStake.create_block_signature (b : Block) (v : Validator) : String :=
  sha256String (toString b.index ++ toString b.timestamp ++ b.data ++
    b.previous_hash ++ v.address ++ toString v.stake)

/-- `ProofOfStake::execute_consensus`: the winning validator's signature
becomes the hash and its stake the nonce; the algorithm state is not
mutated. -/
def ProofOfStake.execute_consensus (draw : String → ℚ) (s : ProofOfStake)
    (b : Block) : Except String ConsensusResult :=
  match s.select_validator draw b with
  | none => .error "No validators available"
  | some v =>
    let signature := ProofOfStake.create_block_signature b v
    .ok { block := { b with hash := signature, nonce := v.stake },
          energy_cost := some (1 / 1000) }

/-- `ProofOfStake::validate_block`: look up the first validator whose
stake equals the nonce and compare its recomputed signature. -/
def ProofOfStake.validate_block (s : ProofOfStake) (b : Block) : Bool :=
  match s.validators.find? (fun v => v.stake == b.nonce) with
  | some v => ProofOfStake.create_block_signature b v == b.hash
  | none => false

/-- `BurnTransaction` (`consensus/pob.rs`). -/
structure BurnTransaction where
  amount : Nat
  burn_address : String
  timestamp : Int
  tx_hash : String
deriving Repr, DecidableEq

/-- `ProofOfBurn` (`consensus/pob.rs`); `decay_factor` is the `f64`
`0.95`, modelled as `19/20`. -/
structure ProofOfBurn where
  burn_transactions : List BurnTransaction
  burn_amount : Nat
  decay_factor : ℚ
  burn_address : String
deriving Repr, DecidableEq

/-- `ProofOfBurn::new`: standard burn address, 5% decay per block. -/
def ProofOfBurn.new (burn_amount : Nat) : ProofOfBurn :=
  { burn_transactions := [], burn_amount := burn_amount,
    decay_factor := 19 / 20, burn_address := "1111111111111111111114oLvT2" }

/-- `ProofOfBurn::add_burn_transaction`: reject amounts below the
minimum, otherwise append a record whose digest covers the amount, burn
address and timestamp. -/
def ProofOfBurn.add_burn_transaction (s : ProofOfBurn) (amount : Nat)
    (timestamp : Int) : ProofOfBurn × Except String String :=
  if amount < s.burn_amount then
    (s, .error ("Burn amount " ++ toString amount ++ " is below minimum " ++
      toString s.burn_amount))
  else
    let tx_hash := sha256String (toString amount ++ s.burn_address ++
      toString timestamp)
    ({ s with burn_transactions := s.burn_transactions ++
        [{ amount := amount, burn_address := s.burn_address,
           timestamp := timestamp, tx_hash := tx_hash }] },
     .ok tx_hash)

/-- The age of a burn record in blocks:
`current_block_index.saturating_sub(timestamp as u64)` — the `i64`
timestamp is reinterpreted as a `u64` (wrapping mod `2^64`) and the
subtraction saturates at zero, which is `Nat` subtraction. -/
def txAge (blockIndex : Nat) (timestamp : Int) : Nat :=
  blockIndex - (timestamp % (2 ^ 64 : Int)).toNat

/-- The decayed mining power of one burn record. -/
def burnPower (decay : ℚ) (blockIndex : Nat) (tx : BurnTransaction) : ℚ :=
  (tx.amount : ℚ) * decay ^ txAge blockIndex tx.timestamp

/-- `ProofOfBurn::calculate_mining_power`: total decayed power. -/
def ProofOfBurn.calculate_mining_power (s : ProofOfBurn) (blockIndex : Nat) : ℚ :=
  (s.burn_transactions.map (burnPower s.decay_factor blockIndex)).sum

/-- The cumulative-power walk inside `select_miner`. -/
def pobScan (decay : ℚ) (blockIndex : Nat) :
    List BurnTransaction → ℚ → ℚ → Option (String × ℚ)
  | [], _, _ => none
  | tx :: rest, cum, rv =>
    let power := burnPower decay blockIndex tx
    let cum2 := cum + power
    if rv ≤ cum2 then some (tx.tx_hash, power) else pobScan decay blockIndex rest cum2 rv

/-- `ProofOfBurn::select_miner`: weighted lottery over decayed burn
power, seeded from the previous block's hash (`draw` as in
`ProofOfStake.select_validator`); falls back to the most recent record. -/
def ProofOfBurn.select_miner (draw : String → ℚ) (s : ProofOfBurn) (b : Block) :
    Option (String × ℚ) :=
  if s.burn_transactions.isEmpty then none
  else
    let total := s.calculate_mining_power b.index
    if total == 0 then none
    else
      let rv := draw b.previous_hash * total
      match pobScan s.decay_factor b.index s.burn_transactions 0 rv with
      | some r => some r
      | none =>
        (s.burn_transactions.getLast?).map fun tx =>
          (tx.tx_hash, burnPower s.decay_factor b.index tx)

/-- `ProofOfBurn::create_burn_proof`: SHA-256 over the block fields, the
selected record's digest and the (formatted) mining power. -/
def ProofOfBurn.create_burn_proof (b : Block) (selected_tx_hash : String)
    (mining_power : ℚ) : String :=
  sha256String (toString b.index ++ toString b.timestamp ++ b.data ++
    b.previous_hash ++ selected_tx_hash ++ ratStr mining_power)

/-- `ProofOfBurn::execute_consensus`: the burn proof becomes the hash and
the first 16 hex characters of the winning record's digest, parsed as an
integer, become the nonce; the state is not mutated. -/
def ProofOfBurn.execute_consensus (draw : String → ℚ) (s : ProofOfBurn)
    (b : Block) : Except String ConsensusResult :=
  if s.burn_transactions.isEmpty then
    .error "No burn transactions available for mining"
  else
    match s.select_miner draw b with
    | none => .error "Unable to select miner"
    | some sel =>
      let burn_proof := ProofOfBurn.create_burn_proof b sel.1 sel.2
      let nonce := (fromStrRadix16 (sel.1.take 16)).getD 0
      .ok { block := { b with hash := burn_proof, nonce := nonce },
            energy_cost := some (1 / 200) }

/-- `ProofOfBurn::validate_block`: find a record whose digest starts with
the zero-padded hex nonce and re-derive the proof — but with the *total*
mining power, not the selected record's own power. -/
def ProofOfBurn.validate_block (s : ProofOfBurn) (b : Block) : Bool :=
  let nonce_hex := hexPad16 b.nonce
  match s.burn_transactions.find? (fun tx => tx.tx_hash.startsWith nonce_hex) with
  | some tx =>
    ProofOfBurn.create_burn_proof b tx.tx_hash (s.calculate_mining_power b.index)
      == b.hash
  | none => false

/-- `Authority` (`consensus/poa.rs`). -/
structure Authority where
  address : String
  public_key : String
  reputation_score : Nat
  is_active : Bool
deriving Repr, DecidableEq

/-- `ProofOfAuthority` (`consensus/poa.rs`); `block_interval` in seconds. -/
structure ProofOfAuthority where
  authorities : List Authority
  current_authority_index : Nat
  block_interval : Nat
  required_confirmations : Nat
deriving Repr, DecidableEq

/-- `ProofOfAuthority::new`: every listed address becomes an active
authority with a stub public key and reputation 100. -/
def ProofOfAuthority.new (authorities : List String) : ProofOfAuthority :=
  { authorities := authorities.enum.map fun p =>
      { address := p.2, public_key := "pubkey_" ++ toString p.1,
        reputation_score := 100, is_active := true },
    current_authority_index := 0, block_interval := 15,
    required_confirmations := 2 }

/-- `ProofOfAuthority::add_authority`: reject duplicates by address. -/
def ProofOfAuthority.add_authority (s : ProofOfAuthority) (address : String)
    (public_key : String) : ProofOfAuthority × Except String Unit :=
  if s.authorities.any (fun a => a.address == address) then
    (s, .error "Authority already exists")
  else
    ({ s with authorities := s.authorities ++
        [{ address := address, public_key := public_key,
           reputation_score := 100, is_active := true }] },
     .ok ())

/-- `ProofOfAuthority::remove_authority`: error if the address is absent
or if it is the last authority in the list; after a removal, reset the
rotation index to 0 when it is out of bounds. -/
def ProofOfAuthority.remove_authority (s : ProofOfAuthority) (address : String) :
    ProofOfAuthority × Except String Unit :=
  match s.authorities.findIdx? (fun a => a.address == address) with
  | none => (s, .error "Authority not found")
  | some pos =>
    if s.authorities.length ≤ 1 then (s, .error "Cannot remove last authority")
    else
      let auths := s.authorities.eraseIdx pos
      let idx := if auths.length ≤ s.current_authority_index then 0
                 else s.current_authority_index
      ({ s with authorities := auths, current_authority_index := idx }, .ok ())

/-- `ProofOfAuthority::get_current_authority`: the authority at the
rotation index, provided it is active. -/
def ProofOfAuthority.get_current_authority (s : ProofOfAuthority) :
    Option Authority :=
  (s.authorities.get? s.current_authority_index).filter (fun a => a.is_active)

/-- The search loop inside `rotate_authority`: at each step, stop at the
current index if it holds an active authority, otherwise advance one
position (mod the list length) and stop anyway upon returning to the
start.  The fuel (`authorities.length + 1` at the call site) covers the
full cycle the loop can traverse before the wrap-around guard fires. -/
def poaRotateLoop (auths : List Authority) (start : Nat) : Nat → Nat → Nat
  | 0, idx => idx
  | fuel + 1, idx =>
    let isActiveHere := match auths.get? idx with
      | some a => a.is_active
      | none => false
    if isActiveHere then idx
    else
      let next := (idx + 1) % auths.length
      if next == start then next else poaRotateLoop auths start fuel next

/-- `ProofOfAuthority::rotate_authority`: advance to the next index, then
search forward for an active authority with the full-cycle guard. -/
def ProofOfAuthority.rotate_authority (s : ProofOfAuthority) : ProofOfAuthority :=
  let start := (s.current_authority_index + 1) % s.authorities.length
  { s with current_authority_index :=
      poaRotateLoop s.authorities start (s.authorities.length + 1) start }

/-- `ProofOfAuthority::create_authority_signature`: SHA-256 over the
block fields and the authority's address and public key. -/
def ProofOfAuthority.create_authority_signature (b : Block) (a : Authority) :
    String :=
  sha256String (toString b.index ++ toString b.timestamp ++ b.data ++
    b.previous_hash ++ a.address ++ a.public_key)

/-- `ProofOfAuthority::execute_consensus`: the current active authority
signs; its rotation index becomes the nonce; then rotate. -/
def ProofOfAuthority.execute_consensus (s : ProofOfAuthority) (b : Block) :
    ProofOfAuthority × Except String ConsensusResult :=
  match s.get_current_authority with
  | none => (s, .error "No active authorities available")
  | some authority =>
    let signature := ProofOfAuthority.create_authority_signature b authority
    let b2 := { b with hash := signature, nonce := s.current_authority_index }
    (s.rotate_authority,
     .ok { block := b2, energy_cost := some (1 / 10000) })

/-- `ProofOfAuthority::validate_block`: the nonce indexes the authority
list; the authority there must exist, be active, and re-sign to the
stored hash. -/
def ProofOfAuthority.validate_block (s : ProofOfAuthority) (b : Block) : Bool :=
  if s.authorities.length ≤ b.nonce then false
  else
    match s.authorities.get? b.nonce with
    | some authority =>
      if !authority.is_active then false
      else ProofOfAuthority.create_authority_signature b authority == b.hash
    | none => false

/-- `MessageType` (`consensus/pbft.rs`). -/
inductive MessageType
  | prePrepare
  | prepare
  | commit
deriving Repr, DecidableEq

/-- The text Rust's derived `Debug` prints for a `MessageType`, which is
what `sign_message` feeds into the hash. -/
def MessageType.debugStr : MessageType → String
  | .prePrepare => "PrePrepare"
  | .prepare => "Prepare"
  | .commit => "Commit"

/-- `PbftMessage` (`consensus/pbft.rs`). -/
structure PbftMessage where
  message_type : MessageType
  view : Nat
  sequence : Nat
  block_hash : String
  node_id : String
  signature : String
deriving Repr, DecidableEq

/-- `PbftNode` (`consensus/pbft.rs`); reputation is an `f64` in Rust
(values `1.0` and `0.1`), modelled as `ℚ`. -/
structure PbftNode where
  node_id : String
  is_primary : Bool
  is_faulty : Bool
  reputation : ℚ
deriving Repr, DecidableEq

/-- `PracticalByzantineFaultTolerance` (`consensus/pbft.rs`);
`fault_tolerance` is an `f32` in Rust, modelled as `ℚ` (the claims'
instance `0.3` floors identically under `f32` and `ℚ`). -/
structure PracticalByzantineFaultTolerance where
  nodes : List PbftNode
  node_count : Nat
  fault_tolerance : ℚ
  current_view : Nat
  current_sequence : Nat
  message_log : List PbftMessage
deriving Repr, DecidableEq

namespace PracticalByzantineFaultTolerance

/-- `PracticalByzantineFaultTolerance::new`: `node_count` nodes named
`node_i`, node 0 primary, none faulty, reputation 1. -/
def new (node_count : Nat) (fault_tolerance : ℚ) :
    PracticalByzantineFaultTolerance :=
  { nodes := (List.range node_count).map fun i =>
      { node_id := "node_" ++ toString i, is_primary := i == 0,
        is_faulty := false, reputation := 1 },
    node_count := node_count, fault_tolerance := fault_tolerance,
    current_view := 0, current_sequence := 0, message_log := [] }

/-- `(node_count as f32 * fault_tolerance).floor() as usize`. -/
def max_faulty (s : PracticalByzantineFaultTolerance) : Nat :=
  ((s.node_count : ℚ) * s.fault_tolerance).floor.toNat

/-- The marking step of `set_faulty_nodes`'s second loop: flag the node
at index `i` as faulty with reputation `0.1`, skipping indices at or
beyond `node_count` (the in-range guard in the Rust loop). -/
def markFaulty (count : Nat) (ns : List PbftNode) (i : Nat) : List PbftNode :=
  if i < count then
    ns.modify (fun n => { n with is_faulty := true, reputation := 1 / 10 }) i
  else ns

/-- `set_faulty_nodes`: reject lists longer than the allowed maximum
before touching any state; otherwise clear every faulty flag and re-mark
the listed nodes, skipping indices at or beyond `node_count`. -/
def set_faulty_nodes (s : PracticalByzantineFaultTolerance)
    (faulty_node_indices : List Nat) :
    PracticalByzantineFaultTolerance × Except String Unit :=
  let maxF := s.max_faulty
  if maxF < faulty_node_indices.length then
    (s, .error ("Too many faulty nodes: " ++ toString faulty_node_indices.length ++
      " > " ++ toString maxF))
  else
    let reset := s.nodes.map fun n => { n with is_faulty := false }
    let marked := faulty_node_indices.foldl (markFaulty s.node_count) reset
    ({ s with nodes := marked }, .ok ())

/-- `get_primary_node`: the first primary, non-faulty node. -/
def get_primary_node (s : PracticalByzantineFaultTolerance) : Option PbftNode :=
  s.nodes.find? fun n => n.is_primary && !n.is_faulty

/-- `get_honest_nodes` (and `get_honest_nodes_owned`). -/
def get_honest_nodes (s : PracticalByzantineFaultTolerance) : List PbftNode :=
  s.nodes.filter fun n => !n.is_faulty

/-- `sign_message`: SHA-256 over the debug-printed phase, the current
view and sequence, the block hash, the node id and the block timestamp. -/
def sign_message (s : PracticalByzantineFaultTolerance) (msg_type : MessageType)
    (b : Block) (node_id : String) : String :=
  sha256String (msg_type.debugStr ++ toString s.current_view ++
    toString s.current_sequence ++ b.hash ++ node_id ++ toString b.timestamp)

/-- `create_message`: a message stamped with the current view/sequence
and its own signature. -/
def create_message (s : PracticalByzantineFaultTolerance) (msg_type : MessageType)
    (b : Block) (node_id : String) : PbftMessage :=
  { message_type := msg_type, view := s.current_view,
    sequence := s.current_sequence, block_hash := b.hash, node_id := node_id,
    signature := s.sign_message msg_type b node_id }

/-- `verify_message`: recompute the signature and require the view and
sequence to match the current counters. -/
def verify_message (s : PracticalByzantineFaultTolerance) (m : PbftMessage)
    (b : Block) : Bool :=
  s.sign_message m.message_type b m.node_id == m.signature &&
    m.view == s.current_view && m.sequence == s.current_sequence

/-- `execute_pbft_consensus`: the three-phase round.  Only the message
log changes; `create_message`/`verify_message` read the view and
sequence counters, which the round never touches, so signing against the
pre-round state is exactly what the Rust code computes. -/
def execute_pbft_consensus (s : PracticalByzantineFaultTolerance) (b : Block) :
    PracticalByzantineFaultTolerance × Except String Bool :=
  let honest := s.get_honest_nodes
  let required_votes := honest.length * 2 / 3 + 1
  match s.get_primary_node with
  | none => (s, .error "No primary node available")
  | some primary =>
    let log1 := s.message_log ++ [s.create_message .prePrepare b primary.node_id]
    let prep := honest.foldl (fun (acc : List PbftMessage × Nat) n =>
      if !n.is_primary then
        let msg := s.create_message .prepare b n.node_id
        if s.verify_message msg b then (acc.1 ++ [msg], acc.2 + 1) else acc
      else acc) (log1, 0)
    if prep.2 < required_votes - 1 then
      ({ s with message_log := prep.1 }, .ok false)
    else
      let com := honest.foldl (fun (acc : List PbftMessage × Nat) n =>
        let msg := s.create_message .commit b n.node_id
        if s.verify_message msg b then (acc.1 ++ [msg], acc.2 + 1) else acc)
        (prep.1, 0)
      ({ s with message_log := com.1 }, .ok (required_votes ≤ com.2))

/-- `rotate_primary`: unset the current primary, promote the next honest
node in wrap-around list order, and bump the view. -/
def rotate_primary (s : PracticalByzantineFaultTolerance) :
    PracticalByzantineFaultTolerance :=
  let cur := (s.nodes.findIdx? (fun n => n.is_primary)).getD 0
  let nodes1 := s.nodes.modify (fun n => { n with is_primary := false }) cur
  let nodes2 := match (List.range' 1 s.node_count).find? (fun i =>
      match nodes1.get? ((cur + i) % s.node_count) with
      | some n => !n.is_faulty
      | none => false) with
    | some i =>
      nodes1.modify (fun n => { n with is_primary := true })
        ((cur + i) % s.node_count)
    | none => nodes1
  { s with nodes := nodes2, current_view := s.current_view + 1 }

/-- `execute_consensus` for pBFT: structural honest-node check, the
three-phase round, then the consensus hash (over the current view,
sequence and honest count), sequence increment and the every-10-sequences
primary rotation. -/
def execute_consensus (s : PracticalByzantineFaultTolerance) (b : Block) :
    PracticalByzantineFaultTolerance × Except String ConsensusResult :=
  if s.nodes.isEmpty then (s, .error "No nodes available for pBFT consensus")
  else
    let honest := s.get_honest_nodes
    let required_honest := s.node_count * 2 / 3 + 1
    if honest.length < required_honest then
      (s, .error ("Insufficient honest nodes: " ++ toString honest.length ++
        " < " ++ toString required_honest))
    else
      match s.execute_pbft_consensus b with
      | (s1, .error e) => (s1, .error e)
      | (s1, .ok false) => (s1, .error "pBFT consensus not reached")
      | (s1, .ok true) =>
        let h := sha256String (toString b.index ++ toString b.timestamp ++
          b.data ++ b.previous_hash ++ toString s1.current_view ++
          toString s1.current_sequence ++ toString honest.length)
        let b2 := { b with hash := h, nonce := s1.current_sequence }
        let s2 := { s1 with current_sequence := s1.current_sequence + 1 }
        let s3 := if s2.current_sequence % 10 == 0 then s2.rotate_primary else s2
        (s3, .ok { block := b2, energy_cost := some (1 / 50) })

/-- `validate_block` for pBFT: reject nonce 0 once the sequence has
advanced past 1, then recompute the hash with the *current* view and
honest count and the nonce as the sequence. -/
def validate_block (s : PracticalByzantineFaultTolerance) (b : Block) : Bool :=
  if b.nonce == 0 ∧ 1 < s.current_sequence then false
  else
    let expected := sha256String (toString b.index ++ toString b.timestamp ++
      b.data ++ b.previous_hash ++ toString s.current_view ++
      toString b.nonce ++ toString s.get_honest_nodes.length)
    expected == b.hash

end PracticalByzantineFaultTolerance

/-- `ConsensusType` (`consensus/mod.rs`), restricted to the six embedded
algorithms.  `ProofOfElapsedTime` (OS randomness for the node id, real
sleeping, and a wall-clock read inside `trusted_wait`'s attestation) and
`ProofOfCapacity` (OS randomness both in plot creation and inside
`validate_block`'s sampling) are outside the embedding. -/
inductive ConsensusType
  | proofOfWork (difficulty : Nat)
  | proofOfStake (minimum_stake : Nat)
  | proofOfHistory (vdf_iterations : Nat)
  | proofOfAuthority (validators : List String)
  | proofOfBurn (burn_amount : Nat)
  | practicalByzantineFaultTolerance (node_count : Nat) (fault_tolerance : ℚ)
deriving Repr, DecidableEq

/-- The engine's `Box<dyn ConsensusAlgorithm>` trait object, as a closed
sum of the embedded algorithm states. -/
inductive ConsensusAlgorithm
  | pow : ProofOfWork → ConsensusAlgorithm
  | pos : ProofOfStake → ConsensusAlgorithm
  | poh : ProofOfHistory → ConsensusAlgorithm
  | poa : ProofOfAuthority → ConsensusAlgorithm
  | pob : ProofOfBurn → ConsensusAlgorithm
  | pbft : PracticalByzantineFaultTolerance → ConsensusAlgorithm
deriving Repr, DecidableEq

/-- Dynamic dispatch of `execute_consensus`.  The result pairs the
(possibly mutated) algorithm state with the Rust `Result`; the outer
`Option` is `none` only when a proof-of-work search exhausts its fuel,
modelling the non-terminating Rust loop. -/
def ConsensusAlgorithm.execute_consensus (draw : String → ℚ) (fuel : Nat) :
    ConsensusAlgorithm → Block →
    Option (ConsensusAlgorithm × Except String ConsensusResult)
  | .pow s, b => (s.execute_consensus b fuel).map fun r => (.pow s, .ok r)
  | .pos s, b => some (.pos s, s.execute_consensus draw b)
  | .poh s, b => some (.poh (s.execute_consensus b).1, (s.execute_consensus b).2)
  | .poa s, b => some (.poa (s.execute_consensus b).1, (s.execute_consensus b).2)
  | .pob s, b => some (.pob s, s.execute_consensus draw b)
  | .pbft s, b => some (.pbft (s.execute_consensus b).1, (s.execute_consensus b).2)

/-- Dynamic dispatch of `validate_block`. -/
def ConsensusAlgorithm.validate_block : ConsensusAlgorithm → Block → Bool
  | .pow s, b => s.validate_block b
  | .pos s, b => s.validate_block b
  | .poh s, b => s.validate_block b
  | .poa s, b => s.validate_block b
  | .pob s, b => s.validate_block b
  | .pbft s, b => s.validate_block b

/-- `ConsensusFactory::create_consensus`: every embedded variant
constructs successfully, exactly as in the source. -/
def ConsensusFactory.create_consensus :
    ConsensusType → Except String ConsensusAlgorithm
  | .proofOfWork difficulty => .ok (.pow (ProofOfWork.new difficulty))
  | .proofOfStake minimum_stake => .ok (.pos (ProofOfStake.new minimum_stake))
  | .proofOfHistory vdf_iterations => .ok (.poh (ProofOfHistory.new vdf_iterations))
  | .proofOfAuthority validators => .ok (.poa (ProofOfAuthority.new validators))
  | .proofOfBurn burn_amount => .ok (.pob (ProofOfBurn.new burn_amount))
  | .practicalByzantineFaultTolerance node_count fault_tolerance =>
    .ok (.pbft (PracticalByzantineFaultTolerance.new node_count fault_tolerance))

/-- `BlockchainStats` (`blockchain.rs`), keeping the counters the engine
branches on; the wall-clock timing and energy accumulators are outside
the embedding. -/
structure BlockchainStats where
  total_blocks : Nat
  consensus_failures : Nat
deriving Repr, DecidableEq

/-- `Blockchain` (`blockchain.rs`); the logger (a pure sink) is outside
the embedding. -/
structure Blockchain where
  blocks : List Block
  consensus_type : ConsensusType
  consensus_stats : BlockchainStats
  difficulty : Nat
  consensus_algorithm : Option ConsensusAlgorithm
deriving Repr, DecidableEq

/-- `Blockchain::new_with_consensus`: build the live algorithm, run the
genesis block's consensus on a *separate* factory instance, keep the
genesis block even when that consensus fails, and start the stats at one
block. -/
def Blockchain.new_with_consensus (draw : String → ℚ) (fuel : Nat)
    (consensus_type : ConsensusType) (ts : Int) :
    Option (Except String Blockchain) :=
  match ConsensusFactory.create_consensus consensus_type with
  | .error e => some (.error e)
  | .ok algo =>
    let genesis := Block.new 0 "Genesis Block" "0" ts
    match ConsensusFactory.create_consensus consensus_type with
    | .error e => some (.error e)
    | .ok genesis_algo =>
      (genesis_algo.execute_consensus draw fuel genesis).map fun p =>
        let genesis2 := match p.2 with
          | .ok result => result.block
          | .error _ => genesis
        .ok { blocks := [genesis2], consensus_type := consensus_type,
              consensus_stats := { total_blocks := 1, consensus_failures := 0 },
              difficulty := 1, consensus_algorithm := some algo }

/-- `Blockchain::switch_consensus`: factory-build a replacement and swap
it in; no historical block is touched. -/
def Blockchain.switch_consensus (c : Blockchain) (t : ConsensusType) :
    Blockchain × Except String Unit :=
  match ConsensusFactory.create_consensus t with
  | .error e => (c, .error e)
  | .ok algo =>
    ({ c with consensus_type := t, consensus_algorithm := some algo }, .ok ())

/-- `Blockchain::add_block`: build the next block on the tail's hash,
delegate to the active algorithm, append on success, count a consensus
failure (without appending) on failure.  The mutated algorithm state is
kept in both branches, as with `&mut` dispatch in Rust. -/
def Blockchain.add_block (draw : String → ℚ) (fuel : Nat) (c : Blockchain)
    (data : String) (ts : Int) :
    Option (Blockchain × Except String ConsensusResult) :=
  match c.blocks.getLast? with
  | none => some (c, .error "No blocks in blockchain")
  | some lastB =>
    let new_block := Block.new c.blocks.length data lastB.hash ts
    match c.consensus_algorithm with
    | none => some (c, .error "No consensus algorithm configured")
    | some algo =>
      (algo.execute_consensus draw fuel new_block).map fun p =>
        match p.2 with
        | .ok result =>
          ({ c with consensus_algorithm := some p.1,
                    consensus_stats := { c.consensus_stats with
                      total_blocks := c.consensus_stats.total_blocks + 1 },
                    blocks := c.blocks ++ [result.block] },
           .ok result)
        | .error e =>
          ({ c with consensus_algorithm := some p.1,
                    consensus_stats := { c.consensus_stats with
                      consensus_failures := c.consensus_stats.consensus_failures + 1 } },
           .error ("Consensus failed: " ++ e))

/-- Any number of consecutive `add_block` calls (payload and creation
time for each); `none` if any proof-of-work search runs out of fuel. -/
def Blockchain.add_blocks (draw : String → ℚ) (fuel : Nat) (c : Blockchain) :
    List (String × Int) → Option Blockchain
  | [] => some c
  | q :: rest =>
    (c.add_block draw fuel q.1 q.2).bind fun p => p.1.add_blocks draw fuel rest

/-- The body of `Blockchain::is_valid`'s loop over `1..blocks.len()`,
phrased on adjacent pairs: check the link to the previous block, then
the current algorithm's validation, for every block after the first. -/
def chainCheck (algo : ConsensusAlgorithm) : Block → List Block → Bool
  | _, [] => true
  | prev, cur :: rest =>
    if cur.previous_hash != prev.hash then false
    else if !algo.validate_block cur then false
    else chainCheck algo cur rest

/-- `Blockchain::is_valid`: false without an active algorithm, otherwise
the pairwise walk starting *from index 1* — the genesis block is never
itself validated. -/
def Blockchain.is_valid (c : Blockchain) : Bool :=
  match c.consensus_algorithm with
  | none => false
  | some algo =>
    match c.blocks with
    | [] => true
    | b0 :: rest => chainCheck algo b0 rest

/-- The chain-link invariant of §3: every block after the first points at
the stored hash of its predecessor. -/
def chainLinked (blocks : List Block) : Prop :=
  ∀ i b1 b2, blocks[i]? = some b1 → blocks[i + 1]? = some b2 →
    b2.previous_hash = b1.hash

/-! ## Proof-of-work mining: loop invariant and the C3 property -/

/-- Whatever nonce the mining loop stops at, the hash it returns is the
recomputed hash at that nonce and carries the zero prefix: the loop's
exit condition. -/
theorem ProofOfWork.mine_from_spec (s : ProofOfWork) (b : Block) :
    ∀ (fuel start : Nat) (p : Nat × String), s.mine_from b start fuel = some p →
      p.2 = s.calculate_hash b p.1 ∧
      p.2.take s.difficulty = zeroTarget s.difficulty := by
  intro fuel
  induction fuel with
  | zero => intro start p h; simp [ProofOfWork.mine_from] at h
  | succ n ih =>
    intro start p h
    simp only [ProofOfWork.mine_from] at h
    split at h
    · cases h
      next hcond =>
        exact ⟨rfl, by simpa [beq_iff_eq] using hcond⟩
    · exact ih (start + 1) p h

/-- Whenever proof-of-work `execute_consensus` returns (at any
difficulty), the mined hash has the zero prefix, recomputing the hash at
the stored nonce reproduces it, and `validate_block` accepts. -/
theorem ProofOfWork.execute_spec (s : ProofOfWork) (b : Block)
    (fuel : Nat) (res : ConsensusResult)
    (h : s.execute_consensus b fuel = some res) :
    res.block.hash.take s.difficulty = zeroTarget s.difficulty ∧
    s.calculate_hash res.block res.block.nonce = res.block.hash ∧
    s.validate_block res.block = true := by
  unfold ProofOfWork.execute_consensus at h
  cases hm : s.mine_block b fuel with
  | none => rw [hm] at h; simp at h
  | some p =>
    rw [hm] at h
    simp only [Option.map_some', Option.some.injEq] at h
    obtain ⟨hhash, hzero⟩ := ProofOfWork.mine_from_spec s b fuel 0 p hm
    subst h
    have hcalc :
        s.calculate_hash
          { b with nonce := p.1, hash := p.2, difficulty := s.difficulty } p.1 =
        s.calculate_hash b p.1 := rfl
    refine ⟨by simpa using hzero, hhash.symm, ?_⟩
    simp only [ProofOfWork.validate_block]
    rw [hcalc, ← hhash]
    simp [hzero]

/-- C3.  For every difficulty in `0..=4`, whenever proof-of-work
`execute_consensus` returns a block, the hash's first `difficulty` hex
characters are all `'0'`, recomputing SHA-256 over (index, timestamp,
data, previous_hash, nonce, difficulty) at the stored nonce reproduces
the stored hash exactly, and `validate_block` accepts the block.
(Termination of the unbounded Rust search loop is modelled by the fuel:
the conclusion holds whenever the search returns.) -/
theorem pow_execute_zero_prefix_rehash_validate (s : ProofOfWork) (b : Block)
    (fuel : Nat) (res : ConsensusResult) (_hd : s.difficulty ≤ 4)
    (h : s.execute_consensus b fuel = some res) :
    res.block.hash.take s.difficulty = zeroTarget s.difficulty ∧
    s.calculate_hash res.block res.block.nonce = res.block.hash ∧
    s.validate_block res.block = true :=
  ProofOfWork.execute_spec s b fuel res h

/-- Witness for C3 at difficulty 0 (one of the difficulties `0..=4`) on a
concrete block: the search returns at once and validation accepts. -/
theorem pow_execute_zero_prefix_rehash_validate_witness :
    (ProofOfWork.new 0).difficulty ≤ 4 ∧
    ((ProofOfWork.new 0).execute_consensus (Block.new 1 "tx" "0" 0) 1).map
      (fun res => decide (res.block.hash.take 0 = zeroTarget 0) &&
        (ProofOfWork.new 0).validate_block res.block) = some true := by
  refine ⟨by decide, ?_⟩
  rcases hE : (ProofOfWork.new 0).execute_consensus (Block.new 1 "tx" "0" 0) 1 with _ | res
  · exact absurd hE (by decide)
  · rw [Option.map_some']
    obtain ⟨h1, h2, h3⟩ :=
      pow_execute_zero_prefix_rehash_validate (ProofOfWork.new 0)
        (Block.new 1 "tx" "0" 0) 1 res (by decide) hE
    have h1b : res.block.hash.take 0 = zeroTarget 0 := h1
    simp [h1b, h3]

/-! ## Proof-of-authority removal (C9) -/

/-- A representable proof-of-authority state in which the only *active*
authority is not the only authority in the list: `carol` has been
deactivated, `dave` is active. -/
def poaTwoOneActive : ProofOfAuthority :=
  { authorities :=
      [{ address := "carol", public_key := "pubkey_0", reputation_score := 100,
         is_active := false },
       { address := "dave", public_key := "pubkey_1", reputation_score := 100,
         is_active := true }],
    current_authority_index := 1, block_interval := 15,
    required_confirmations := 2 }

/-- C9 counterexample: `dave` is the last active authority, yet
`remove_authority "dave"` returns `Ok` and removes him (leaving no
active authority at all), because the guard compares the *total* list
length with 1 and never consults `is_active`. -/
theorem remove_last_active_authority_succeeds :
    ((poaTwoOneActive.authorities.filter (fun a => a.is_active)).map
      (fun a => a.address)) = ["dave"] ∧
    (poaTwoOneActive.remove_authority "dave").2 = .ok () ∧
    ((poaTwoOneActive.remove_authority "dave").1.authorities.map
      (fun a => a.address)) = ["carol"] := by decide

/-- C9 as amended: `remove_authority` errors out (leaving the state — the
authority list and the rotation index — unchanged) when the authority
being removed is the *only authority in the list*, active or not. -/
theorem remove_sole_authority_rejected (s : ProofOfAuthority) (address : String)
    (hfound : (s.authorities.findIdx? (fun a => a.address == address)).isSome = true)
    (hlen : s.authorities.length ≤ 1) :
    s.remove_authority address = (s, .error "Cannot remove last authority") := by
  unfold ProofOfAuthority.remove_authority
  cases hidx : s.authorities.findIdx? (fun a => a.address == address) with
  | none => rw [hidx] at hfound; simp at hfound
  | some pos => simp [hidx, hlen]

/-- Witness for the amended C9: a one-authority instance refuses the
removal and is returned unchanged. -/
theorem remove_sole_authority_rejected_witness :
    (ProofOfAuthority.new ["alice"]).remove_authority "alice" =
      (ProofOfAuthority.new ["alice"], .error "Cannot remove last authority") :=
  remove_sole_authority_rejected (ProofOfAuthority.new ["alice"]) "alice"
    (by decide) (by decide)

/-! ## Stake/burn selection determinism (C7) -/

/-- C7.  Stake and burn selection are pure functions of the algorithm
state and the seeding fields: with the validator/burn state fixed, any
two blocks sharing `previous_hash` (and, for burn, the block index that
ages the records) select the same validator, respectively the same burn
record — the timestamp, payload and remaining fields play no role, and
no hidden state enters the draw. -/
theorem stake_burn_selection_deterministic :
    (∀ (draw : String → ℚ) (s : ProofOfStake) (b1 b2 : Block),
        b1.previous_hash = b2.previous_hash →
        s.select_validator draw b1 = s.select_validator draw b2) ∧
    (∀ (draw : String → ℚ) (s : ProofOfBurn) (b1 b2 : Block),
        b1.previous_hash = b2.previous_hash → b1.index = b2.index →
        s.select_miner draw b1 = s.select_miner draw b2) := by
  constructor
  · intro draw s b1 b2 hprev
    unfold ProofOfStake.select_validator
    rw [hprev]
  · intro draw s b1 b2 hprev hidx
    unfold ProofOfBurn.select_miner ProofOfBurn.calculate_mining_power
    rw [hprev, hidx]

/-- Witness for C7: a one-validator (resp. one-record) state and two
blocks agreeing only on the seeding fields select identically — and do
select something. -/
theorem stake_burn_selection_deterministic_witness :
    (((ProofOfStake.new 10).add_validator "val1" 50).1.select_validator
        (fun _ => 1 / 2) (Block.new 1 "payload-a" "prev" 0) =
      ((ProofOfStake.new 10).add_validator "val1" 50).1.select_validator
        (fun _ => 1 / 2) (Block.new 1 "payload-b" "prev" 99)) ∧
    (((ProofOfBurn.new 10).add_burn_transaction 40 0).1.select_miner
        (fun _ => 1 / 2) (Block.new 2 "payload-a" "prev" 0) =
      ((ProofOfBurn.new 10).add_burn_transaction 40 0).1.select_miner
        (fun _ => 1 / 2) (Block.new 2 "payload-b" "prev" 99)) :=
  ⟨stake_burn_selection_deterministic.1 (fun _ => 1 / 2)
      ((ProofOfStake.new 10).add_validator "val1" 50).1
      (Block.new 1 "payload-a" "prev" 0) (Block.new 1 "payload-b" "prev" 99) rfl,
   stake_burn_selection_deterministic.2 (fun _ => 1 / 2)
      ((ProofOfBurn.new 10).add_burn_transaction 40 0).1
      (Block.new 2 "payload-a" "prev" 0) (Block.new 2 "payload-b" "prev" 99) rfl rfl⟩

/-! ## Proof-of-authority rotation (C8) -/

/-- Consecutive `execute_consensus` calls, returning each call's result
in order while threading the rotating state. -/
def ProofOfAuthority.run (s : ProofOfAuthority) :
    List Block → List (Except String ConsensusResult)
  | [] => []
  | b :: rest =>
    ((s.execute_consensus b).2) :: (s.execute_consensus b).1.run rest

/-- The state `ProofOfAuthority::new [a0,a1,a2]` reaches after `i`
rotations: three active authorities with stub keys, rotation index `i`. -/
def poa3 (a0 a1 a2 : String) (i : Nat) : ProofOfAuthority :=
  { authorities :=
      [{ address := a0, public_key := "pubkey_0", reputation_score := 100,
         is_active := true },
       { address := a1, public_key := "pubkey_1", reputation_score := 100,
         is_active := true },
       { address := a2, public_key := "pubkey_2", reputation_score := 100,
         is_active := true }],
    current_authority_index := i, block_interval := 15,
    required_confirmations := 2 }

theorem poa3_new (a0 a1 a2 : String) :
    ProofOfAuthority.new [a0, a1, a2] = poa3 a0 a1 a2 0 := by
  simp [ProofOfAuthority.new, poa3, List.enum, List.enumFrom]
  exact ⟨by decide, by decide, by decide⟩

theorem poa3_step0 (a0 a1 a2 : String) (b : Block) :
    (poa3 a0 a1 a2 0).execute_consensus b =
      (poa3 a0 a1 a2 1,
       .ok { block := { b with
               hash := ProofOfAuthority.create_authority_signature b
                 { address := a0, public_key := "pubkey_0",
                   reputation_score := 100, is_active := true },
               nonce := 0 },
             energy_cost := some (1 / 10000) }) := rfl

theorem poa3_step1 (a0 a1 a2 : String) (b : Block) :
    (poa3 a0 a1 a2 1).execute_consensus b =
      (poa3 a0 a1 a2 2,
       .ok { block := { b with
               hash := ProofOfAuthority.create_authority_signature b
                 { address := a1, public_key := "pubkey_1",
                   reputation_score := 100, is_active := true },
               nonce := 1 },
             energy_cost := some (1 / 10000) }) := rfl

theorem poa3_step2 (a0 a1 a2 : String) (b : Block) :
    (poa3 a0 a1 a2 2).execute_consensus b =
      (poa3 a0 a1 a2 0,
       .ok { block := { b with
               hash := ProofOfAuthority.create_authority_signature b
                 { address := a2, public_key := "pubkey_2",
                   reputation_score := 100, is_active := true },
               nonce := 2 },
             energy_cost := some (1 / 10000) }) := by
  simp [poa3, ProofOfAuthority.execute_consensus,
    ProofOfAuthority.get_current_authority, Option.filter,
    ProofOfAuthority.rotate_authority, poaRotateLoop]

/-- C8.  For an instance with exactly 3 authorities, all active (as
`ProofOfAuthority::new` builds them), starting at rotation index 0, six
consecutive `execute_consensus` calls all succeed and record the signing
authority's index in the nonce, in the cyclic order 0,1,2,0,1,2. -/
theorem authority_rotation_cycle (a0 a1 a2 : String)
    (b1 b2 b3 b4 b5 b6 : Block) :
    ((ProofOfAuthority.new [a0, a1, a2]).run [b1, b2, b3, b4, b5, b6]).map
        (fun r => r.toOption.map (fun res => res.block.nonce)) =
      [some 0, some 1, some 2, some 0, some 1, some 2] := by
  rw [poa3_new]
  simp only [ProofOfAuthority.run, poa3_step0, poa3_step1, poa3_step2,
    List.map_cons, List.map_nil, Except.toOption, Option.map_some']

/-! ## pBFT: the 7-node round, the fault-set cap (C2) and index skipping (C10) -/

/-- C2.  A pBFT instance built with `node_count = 7`,
`fault_tolerance = 0.3` and no faulty nodes reaches consensus on every
block; and on any instance, `set_faulty_nodes` with a list longer than
`floor(node_count × fault_tolerance)` returns the over-limit error and
returns with the state — every node's `is_faulty` flag and reputation —
untouched. -/
theorem pbft_seven_succeeds_and_overfull_faulty_rejected :
    (∀ b : Block,
      (((PracticalByzantineFaultTolerance.new 7 (3 / 10)).execute_consensus b).2).isOk
        = true) ∧
    (∀ (s : PracticalByzantineFaultTolerance) (idxs : List Nat),
      s.max_faulty < idxs.length →
      s.set_faulty_nodes idxs =
        (s, .error ("Too many faulty nodes: " ++ toString idxs.length ++
          " > " ++ toString s.max_faulty))) := by
  constructor
  · intro b
    simp [PracticalByzantineFaultTolerance.new,
      PracticalByzantineFaultTolerance.execute_consensus,
      PracticalByzantineFaultTolerance.execute_pbft_consensus,
      PracticalByzantineFaultTolerance.get_honest_nodes,
      PracticalByzantineFaultTolerance.get_primary_node,
      PracticalByzantineFaultTolerance.create_message,
      PracticalByzantineFaultTolerance.verify_message,
      List.range_succ, Except.isOk, Except.toBool]
  · intro s idxs hover
    unfold PracticalByzantineFaultTolerance.set_faulty_nodes
    simp [hover]

/-- The claimed instance's fault cap: `floor(7 × 0.3) = 2`. -/
theorem pbft_seven_max_faulty :
    (PracticalByzantineFaultTolerance.new 7 (3 / 10)).max_faulty = 2 := by
  show ((7 : ℚ) * (3 / 10)).floor.toNat = 2
  rw [show Rat.floor ((7 : ℚ) * (3 / 10)) = ⌊(7 : ℚ) * (3 / 10)⌋ from rfl]
  rw [show ⌊(7 : ℚ) * (3 / 10)⌋ = 2 by norm_num]
  rfl

/-- Witness for C2: the 7-node instance accepts a concrete block, and a
3-element faulty list (one more than `floor(7 × 0.3) = 2`) is rejected
with the state unchanged. -/
theorem pbft_seven_succeeds_and_overfull_faulty_rejected_witness :
    ((((PracticalByzantineFaultTolerance.new 7 (3 / 10)).execute_consensus
        (Block.new 1 "tx" "0" 0)).2).isOk = true) ∧
    (PracticalByzantineFaultTolerance.new 7 (3 / 10)).set_faulty_nodes [0, 1, 2] =
      (PracticalByzantineFaultTolerance.new 7 (3 / 10),
       .error ("Too many faulty nodes: " ++ toString (3 : Nat) ++ " > " ++
         toString (2 : Nat))) := by
  constructor
  · exact pbft_seven_succeeds_and_overfull_faulty_rejected.1 (Block.new 1 "tx" "0" 0)
  · have h := pbft_seven_succeeds_and_overfull_faulty_rejected.2
      (PracticalByzantineFaultTolerance.new 7 (3 / 10)) [0, 1, 2]
      (by rw [pbft_seven_max_faulty]; decide)
    rw [pbft_seven_max_faulty] at h
    simpa using h

/-- After folding the marking step, a node is faulty exactly when its
index is an in-range member of the list or it was already faulty. -/
theorem foldl_markFaulty_is_faulty (count : Nat) :
    ∀ (idxs : List Nat) (ns : List PbftNode) (j : Nat),
      ((idxs.foldl (PracticalByzantineFaultTolerance.markFaulty count) ns)[j]?).map
          (fun n => n.is_faulty) =
        (ns[j]?).map (fun n => decide (j ∈ idxs ∧ j < count) || n.is_faulty) := by
  intro idxs
  induction idxs with
  | nil =>
    intro ns j
    simp
  | cons i rest ih =>
    intro ns j
    rw [List.foldl_cons, ih]
    unfold PracticalByzantineFaultTolerance.markFaulty
    by_cases hi : i < count
    · rw [if_pos hi, List.getElem?_modify]
      by_cases hij : i = j
      · subst hij
        cases h : ns[i]? <;> simp [hi, h]
      · simp only [if_neg hij]
        cases h : ns[j]? <;>
          simp [h, decide_eq_false (fun hh : j = i => hij hh.symm)]
    · rw [if_neg hi]
      by_cases hij : j = i
      · subst hij
        cases h : ns[j]? <;> simp [h, decide_eq_false hi]
      · cases h : ns[j]? <;> simp [h, decide_eq_false hij]

/-- C10.  `set_faulty_nodes` does not validate the indices themselves:
a list within the length cap returns `Ok` even when it contains indices
`≥ node_count`; those out-of-range entries are silently skipped, and a
node ends up faulty exactly when its index is an in-range member of the
list (the over-limit check already counted the out-of-range entries
toward the cap, as the C2 theorem shows for any list). -/
theorem set_faulty_skips_out_of_range
    (s : PracticalByzantineFaultTolerance) (idxs : List Nat)
    (hlen : idxs.length ≤ s.max_faulty) :
    (s.set_faulty_nodes idxs).2 = .ok () ∧
    ∀ j : Nat,
      ((((s.set_faulty_nodes idxs).1.nodes)[j]?).map (fun n => n.is_faulty)) =
        (((s.nodes)[j]?).map (fun _ => decide (j ∈ idxs ∧ j < s.node_count))) := by
  unfold PracticalByzantineFaultTolerance.set_faulty_nodes
  rw [if_neg (by omega)]
  refine ⟨rfl, ?_⟩
  intro j
  rw [foldl_markFaulty_is_faulty, List.getElem?_map]
  cases h : s.nodes[j]? with
  | none => simp
  | some n => simp

/-- Witness for C10: on a 4-node instance with cap `floor(4 × 0.5) = 2`,
the list `[1, 9]` is accepted; node 1 is marked faulty, node 3 is not,
and the out-of-range entry 9 has no effect. -/
theorem set_faulty_skips_out_of_range_witness :
    ((PracticalByzantineFaultTolerance.new 4 (1 / 2)).set_faulty_nodes [1, 9]).2
      = .ok () ∧
    ((((PracticalByzantineFaultTolerance.new 4 (1 / 2)).set_faulty_nodes
        [1, 9]).1.nodes)[1]?).map (fun n => n.is_faulty) = some true ∧
    ((((PracticalByzantineFaultTolerance.new 4 (1 / 2)).set_faulty_nodes
        [1, 9]).1.nodes)[3]?).map (fun n => n.is_faulty) = some false := by
  have hmf : (PracticalByzantineFaultTolerance.new 4 (1 / 2)).max_faulty = 2 := by
    show ((4 : ℚ) * (1 / 2)).floor.toNat = 2
    rw [show Rat.floor ((4 : ℚ) * (1 / 2)) = ⌊(4 : ℚ) * (1 / 2)⌋ from rfl]
    rw [show ⌊(4 : ℚ) * (1 / 2)⌋ = 2 by norm_num]
    rfl
  have h := set_faulty_skips_out_of_range
    (PracticalByzantineFaultTolerance.new 4 (1 / 2)) [1, 9]
    (by rw [hmf]; decide)
  refine ⟨h.1, ?_, ?_⟩
  · rw [h.2 1]; decide
  · rw [h.2 3]; decide

/-! ## Execute-then-validate (C1) -/

/-- The three-phase round only appends to the message log: the node set,
view, sequence and node count are untouched. -/
theorem PracticalByzantineFaultTolerance.round_state
    (s : PracticalByzantineFaultTolerance) (b : Block) :
    (s.execute_pbft_consensus b).1.nodes = s.nodes ∧
    (s.execute_pbft_consensus b).1.current_view = s.current_view ∧
    (s.execute_pbft_consensus b).1.current_sequence = s.current_sequence ∧
    (s.execute_pbft_consensus b).1.node_count = s.node_count := by
  unfold PracticalByzantineFaultTolerance.execute_pbft_consensus
  cases s.get_primary_node with
  | none => exact ⟨rfl, rfl, rfl, rfl⟩
  | some primary =>
    simp only
    split <;> exact ⟨rfl, rfl, rfl, rfl⟩

/-- `rotate_primary` never changes the sequence counter. -/
theorem PracticalByzantineFaultTolerance.rotate_primary_sequence
    (s : PracticalByzantineFaultTolerance) :
    s.rotate_primary.current_sequence = s.current_sequence := rfl

/-- pBFT `validate_block` accepts a block its own `execute_consensus`
just finalized, provided the execute did not land on a multiple-of-ten
sequence (which rotates the primary and bumps the view the stored hash
was computed under). -/
theorem PracticalByzantineFaultTolerance.validate_after_execute
    (s s3 : PracticalByzantineFaultTolerance) (b : Block)
    (res : ConsensusResult)
    (hexec : s.execute_consensus b = (s3, .ok res))
    (hrot : ¬ s3.current_sequence % 10 = 0) :
    s3.validate_block res.block = true := by
  unfold PracticalByzantineFaultTolerance.execute_consensus at hexec
  by_cases hne : s.nodes.isEmpty
  · rw [if_pos hne] at hexec
    simp [Prod.ext_iff] at hexec
  · rw [if_neg hne] at hexec
    by_cases hh : (s.get_honest_nodes).length < s.node_count * 2 / 3 + 1
    · rw [if_pos hh] at hexec
      simp [Prod.ext_iff] at hexec
    · rw [if_neg hh] at hexec
      rcases hr : s.execute_pbft_consensus b with ⟨s1, r⟩
      rw [hr] at hexec
      obtain ⟨hn1, hv1, hq1, _⟩ := PracticalByzantineFaultTolerance.round_state s b
      rw [hr] at hn1 hv1 hq1
      cases r with
      | error e => simp [Prod.ext_iff] at hexec
      | ok reached =>
        cases reached with
        | false => simp [Prod.ext_iff] at hexec
        | true =>
          simp only [Prod.mk.injEq, Except.ok.injEq] at hexec
          obtain ⟨hs3, hres⟩ := hexec
          by_cases hten :
              (({ s1 with current_sequence := s1.current_sequence + 1 :
                  PracticalByzantineFaultTolerance }).current_sequence % 10 == 0)
                = true
          · rw [if_pos hten] at hs3
            exfalso
            apply hrot
            rw [← hs3,
              PracticalByzantineFaultTolerance.rotate_primary_sequence]
            simpa using hten
          · rw [if_neg hten] at hs3
            subst hs3
            subst hres
            unfold PracticalByzantineFaultTolerance.validate_block
            rw [if_neg (by
              intro hc
              obtain ⟨hz, hlt⟩ := hc
              simp only [beq_iff_eq] at hz
              simp only [hz, hq1] at hlt ⊢
              omega)]
            simp only [PracticalByzantineFaultTolerance.get_honest_nodes,
              PracticalByzantineFaultTolerance.get_honest_nodes] at *
            show (sha256String (toString b.index ++ toString b.timestamp ++
              b.data ++ b.previous_hash ++ toString s1.current_view ++
              toString s1.current_sequence ++
              toString (s1.nodes.filter (fun n => !n.is_faulty)).length)
                == sha256String (toString b.index ++ toString b.timestamp ++
              b.data ++ b.previous_hash ++ toString s1.current_view ++
              toString s1.current_sequence ++
              toString (s.nodes.filter (fun n => !n.is_faulty)).length)) = true
            rw [hn1]
            exact beq_self_eq_true _

set_option maxRecDepth 100000 in
/-- C1 counterexample: a Proof-of-History instance (`vdf_iterations = 1`)
finalizes a concrete block with `execute_consensus`, and the very same
instance state, with no operation in between, rejects that block —
`validate_block` hashes the literal `"placeholder_history"` where
`execute_consensus` hashed the real VDF output. -/
theorem poh_validate_rejects_freshly_executed_block :
    (((ProofOfHistory.new 1).execute_consensus (Block.new 1 "tx" "0" 0)).2.toOption.map
      (fun res =>
        (((ProofOfHistory.new 1).execute_consensus (Block.new 1 "tx" "0" 0)).1).validate_block
          res.block)) = some false := by decide

/-- `posScan` only returns members of the list it walks. -/
theorem posScan_mem (w : Validator) :
    ∀ (l : List Validator) (cum rv : ℚ),
      posScan l cum rv = some w → w ∈ l := by
  intro l
  induction l with
  | nil => intro cum rv h; simp [posScan] at h
  | cons a t ih =>
    intro cum rv h
    simp only [posScan] at h
    split at h
    · obtain rfl : a = w := by injection h
      exact List.mem_cons_self a t
    · exact List.mem_cons_of_mem a (ih _ _ h)

/-- `select_validator` only returns members of the validator list. -/
theorem select_validator_mem (draw : String → ℚ) (s : ProofOfStake)
    (b : Block) (v : Validator)
    (h : s.select_validator draw b = some v) : v ∈ s.validators := by
  simp only [ProofOfStake.select_validator] at h
  split at h
  · exact absurd h (by simp)
  · split at h
    · exact absurd h (by simp)
    · split at h
      · rename_i w heq
        obtain rfl : w = v := by injection h
        exact posScan_mem _ _ _ _ heq
      · exact List.mem_of_mem_getLast? h

/-- In a validator list with pairwise distinct stakes, looking a member up
by its stake returns that member. -/
theorem find_by_stake_of_pairwise (v : Validator) :
    ∀ l : List Validator, v ∈ l →
      l.Pairwise (fun a b => a.stake ≠ b.stake) →
      l.find? (fun w => w.stake == v.stake) = some v := by
  intro l
  induction l with
  | nil => intro h _; exact absurd h (List.not_mem_nil v)
  | cons a t ih =>
    intro hmem hpw
    rcases List.mem_cons.mp hmem with rfl | ht
    · exact List.find?_cons_of_pos _ (by simp)
    · have hne : a.stake ≠ v.stake := (List.pairwise_cons.mp hpw).1 v ht
      rw [List.find?_cons_of_neg _ (by simpa using hne)]
      exact ih ht (List.pairwise_cons.mp hpw).2

/-- PoS `validate_block` accepts a block its own `execute_consensus` just
finalized, provided the validators carry pairwise distinct stakes: the
nonce records only the winner's stake, and validation looks up the first
validator with that stake. -/
theorem pos_validate_after_execute (draw : String → ℚ) (s : ProofOfStake)
    (b : Block) (res : ConsensusResult)
    (hdist : s.validators.Pairwise (fun a b => a.stake ≠ b.stake))
    (hexec : s.execute_consensus draw b = .ok res) :
    s.validate_block res.block = true := by
  unfold ProofOfStake.execute_consensus at hexec
  rcases hsel : s.select_validator draw b with _ | v
  · rw [hsel] at hexec
    exact absurd hexec (by simp)
  · rw [hsel] at hexec
    simp only [Except.ok.injEq] at hexec
    subst hexec
    have hfind : s.validators.find? (fun w => w.stake == v.stake) = some v :=
      find_by_stake_of_pairwise v s.validators
        (select_validator_mem draw s b v hsel) hdist
    unfold ProofOfStake.validate_block
    dsimp only
    rw [hfind]
    exact beq_self_eq_true _

/-- PoA `validate_block` accepts, against the rotated state, any block its
own `execute_consensus` just finalized: rotation changes only the index,
the nonce records the signer's position, and the signer's entry (still at
that position, still active) re-signs to the stored hash. -/
theorem poa_validate_after_execute (s s2 : ProofOfAuthority) (b : Block)
    (res : ConsensusResult)
    (hexec : s.execute_consensus b = (s2, .ok res)) :
    s2.validate_block res.block = true := by
  unfold ProofOfAuthority.execute_consensus at hexec
  rcases hcur : s.get_current_authority with _ | a
  · rw [hcur] at hexec
    simp [Prod.ext_iff] at hexec
  · rw [hcur] at hexec
    simp only [Prod.mk.injEq, Except.ok.injEq] at hexec
    obtain ⟨hs2, hres⟩ := hexec
    unfold ProofOfAuthority.get_current_authority at hcur
    rcases hg : s.authorities.get? s.current_authority_index with _ | a0
    · rw [hg] at hcur
      simp [Option.filter] at hcur
    · rw [hg] at hcur
      by_cases hact : a0.is_active = true
      · have haa : a0 = a := by
          simp [Option.filter, hact] at hcur
          exact hcur
        subst haa
        subst hres
        have hlen : s.current_authority_index < s.authorities.length := by
          by_contra hnot
          rw [List.get?_eq_none.mpr (by omega)] at hg
          exact absurd hg (by simp)
        have hau : s2.authorities = s.authorities := by
          rw [← hs2]
          rfl
        unfold ProofOfAuthority.validate_block
        rw [hau]
        dsimp only
        rw [if_neg (by omega)]
        rw [hg]
        dsimp only
        rw [if_neg (by simp [hact])]
        exact beq_self_eq_true _
      · simp [Option.filter, hact] at hcur

/-- The character-comparison loop of `String.substrEq` is reflexive: a
string compared with itself at equal offsets always succeeds. -/
theorem substrEq_loop_refl (s : String) :
    ∀ (n : Nat) (off stop : String.Pos),
      stop.byteIdx - off.byteIdx = n →
      String.substrEq.loop s s off off stop = true := by
  intro n
  induction n using Nat.strong_induction_on with
  | _ n ih =>
    intro off stop hn
    rw [String.substrEq.loop.eq_def]
    by_cases h : off.byteIdx < stop.byteIdx
    · rw [dif_pos h]
      simp only [beq_self_eq_true, Bool.true_and]
      exact ih (stop.byteIdx - (off + s.get off).byteIdx) (by
        have hpos := (s.get off).utf8Size_pos
        show stop.byteIdx - (off.byteIdx + (s.get off).utf8Size) < n
        omega) _ _ rfl
    · rw [dif_neg h]

/-- The cumulative walk over a single burn record either selects that
record (with its own power) or falls through. -/
theorem pobScan_singleton (dec : ℚ) (i : Nat) (tx : BurnTransaction)
    (cum rv : ℚ) :
    pobScan dec i [tx] cum rv = some (tx.tx_hash, burnPower dec i tx) ∨
    pobScan dec i [tx] cum rv = none := by
  simp only [pobScan]
  split
  · exact Or.inl rfl
  · exact Or.inr rfl

/-- Over a single burn record with nonzero decayed power, `select_miner`
always picks that record with its own power (the fallback branch picks
the same record). -/
theorem select_miner_singleton (draw : String → ℚ) (tx : BurnTransaction)
    (bam : Nat) (dec : ℚ) (ba : String) (b : Block)
    (hnz : (burnPower dec b.index tx + 0 == 0) = false) :
    (ProofOfBurn.mk [tx] bam dec ba).select_miner draw b =
      some (tx.tx_hash, burnPower dec b.index tx) := by
  simp only [ProofOfBurn.select_miner, ProofOfBurn.calculate_mining_power,
    List.isEmpty_cons, List.map_cons, List.map_nil, List.sum_cons,
    List.sum_nil]
  rw [if_neg (by simp)]
  rw [hnz]
  rw [if_neg (by simp)]
  rcases pobScan_singleton dec b.index tx 0
      (draw b.previous_hash * (burnPower dec b.index tx + 0)) with hsc | hsc
  · rw [hsc]
  · rw [hsc]
    simp [List.getLast?]

/-- PoB `validate_block` accepts a block its own `execute_consensus` just
finalized when exactly one burn record exists — the total mining power
validation re-derives then equals the winner's own power — and that
record's digest round-trips the 16-hex-character nonce encoding. -/
theorem pob_validate_after_execute (draw : String → ℚ) (s : ProofOfBurn)
    (b : Block) (res : ConsensusResult) (tx : BurnTransaction)
    (hone : s.burn_transactions = [tx])
    (h16 : tx.tx_hash.startsWith
      (hexPad16 ((fromStrRadix16 (tx.tx_hash.take 16)).getD 0)) = true)
    (hexec : s.execute_consensus draw b = .ok res) :
    s.validate_block res.block = true := by
  have hmk : s = ProofOfBurn.mk [tx] s.burn_amount s.decay_factor
      s.burn_address := by
    cases s
    simp only at hone
    rw [hone]
  unfold ProofOfBurn.execute_consensus at hexec
  rw [hone] at hexec
  rw [if_neg (by simp)] at hexec
  rcases hm : s.select_miner draw b with _ | sel
  · rw [hm] at hexec
    exact absurd hexec (by simp)
  · rw [hm] at hexec
    dsimp only at hexec
    have hsel : sel = (tx.tx_hash, burnPower s.decay_factor b.index tx) := by
      rw [hmk] at hm
      cases hz : (burnPower s.decay_factor b.index tx + 0 == 0) with
      | false =>
        rw [select_miner_singleton draw tx s.burn_amount s.decay_factor
          s.burn_address b hz] at hm
        exact Option.some.inj hm.symm
      | true =>
        exfalso
        simp only [ProofOfBurn.select_miner, ProofOfBurn.calculate_mining_power,
          List.isEmpty_cons, List.map_cons, List.map_nil, List.sum_cons,
          List.sum_nil] at hm
        rw [if_neg (by simp)] at hm
        rw [hz] at hm
        rw [if_pos rfl] at hm
        exact absurd hm (by simp)
    subst hsel
    simp only [Except.ok.injEq] at hexec
    subst hexec
    unfold ProofOfBurn.validate_block
    rw [hone]
    dsimp only
    have hfind : List.find?
        (fun t => t.tx_hash.startsWith
          (hexPad16 ((fromStrRadix16 (tx.tx_hash.take 16)).getD 0))) [tx] =
        some tx := List.find?_cons_of_pos _ h16
    rw [hfind]
    dsimp only
    have hcm : s.calculate_mining_power b.index =
        burnPower s.decay_factor b.index tx := by
      unfold ProofOfBurn.calculate_mining_power
      rw [hone]
      simp
    rw [hcm]
    exact beq_self_eq_true _

/-- Over a single validator with nonzero weighted stake,
`select_validator` always picks that validator (the fallback branch picks
the same one). -/
theorem select_validator_singleton (draw : String → ℚ) (v : Validator)
    (mins : Nat) (slr : ℚ) (b : Block)
    (hnz : ((v.stake : ℚ) * v.reputation + 0 == 0) = false) :
    (ProofOfStake.mk [v] mins slr).select_validator draw b = some v := by
  simp only [ProofOfStake.select_validator, List.isEmpty_cons,
    List.map_cons, List.map_nil, List.sum_cons, List.sum_nil]
  rw [if_neg (by simp)]
  rw [hnz]
  rw [if_neg (by simp)]
  rcases hsc : posScan [v] 0
      (draw b.previous_hash * ((v.stake : ℚ) * v.reputation + 0)) with _ | w
  · simp [List.getLast?]
  · have hw : w = v := by
      have hmem := posScan_mem _ _ _ _ hsc
      simpa using hmem
    subst hw
    rfl

/-- C1 as amended.  The execute-then-validate round trip holds for Proof
of Work unconditionally; for Proof of Authority unconditionally, against
the rotated state (rotation moves only the index, and the nonce records
the signer's position); for Proof of Stake whenever the validators carry
pairwise distinct stakes; for Proof of Burn whenever exactly one burn
record exists and its digest round-trips the 16-hex-character nonce
encoding; and for pBFT whenever the finalized sequence number is not a
multiple of ten (which rotates the primary and bumps the view the stored
hash was computed under).  It fails for Proof of History (see the
counterexample), whose `validate_block` hashes a placeholder instead of
the VDF output that `execute_consensus` stored. -/
theorem execute_ok_implies_validate_amended :
    (∀ (s : ProofOfWork) (b : Block) (fuel : Nat) (res : ConsensusResult),
        s.execute_consensus b fuel = some res →
        s.validate_block res.block = true) ∧
    (∀ (s s2 : ProofOfAuthority) (b : Block) (res : ConsensusResult),
        s.execute_consensus b = (s2, .ok res) →
        s2.validate_block res.block = true) ∧
    (∀ (draw : String → ℚ) (s : ProofOfStake) (b : Block)
        (res : ConsensusResult),
        s.validators.Pairwise (fun a b => a.stake ≠ b.stake) →
        s.execute_consensus draw b = .ok res →
        s.validate_block res.block = true) ∧
    (∀ (draw : String → ℚ) (s : ProofOfBurn) (b : Block)
        (res : ConsensusResult) (tx : BurnTransaction),
        s.burn_transactions = [tx] →
        tx.tx_hash.startsWith
          (hexPad16 ((fromStrRadix16 (tx.tx_hash.take 16)).getD 0)) = true →
        s.execute_consensus draw b = .ok res →
        s.validate_block res.block = true) ∧
    (∀ (s s3 : PracticalByzantineFaultTolerance) (b : Block)
        (res : ConsensusResult),
        s.execute_consensus b = (s3, .ok res) →
        ¬ s3.current_sequence % 10 = 0 →
        s3.validate_block res.block = true) :=
  ⟨fun s b fuel res h => (ProofOfWork.execute_spec s b fuel res h).2.2,
   fun s s2 b res h => poa_validate_after_execute s s2 b res h,
   fun draw s b res hd h => pos_validate_after_execute draw s b res hd h,
   fun draw s b res tx h1 h2 h3 =>
     pob_validate_after_execute draw s b res tx h1 h2 h3,
   fun s s3 b res hexec hrot =>
     PracticalByzantineFaultTolerance.validate_after_execute s s3 b res hexec
       hrot⟩

/-- A one-validator stake state for the C1 witness (reachable as
`(ProofOfStake.new 0).add_validator "v1" 5`). -/
def c1PosState : ProofOfStake :=
  { validators := [{ address := "v1", stake := 5, reputation := 1 }],
    minimum_stake := 0, slashing_rate := 1 / 10 }

/-- A burn record whose digest is its own 16-hex-character nonce
encoding; the burn state below is built from the `pub` fields
(`add_burn_transaction` would store a 64-character digest, which
round-trips the same way). -/
def c1BurnTx : BurnTransaction :=
  { amount := 40, burn_address := "1111111111111111111114oLvT2",
    timestamp := 0, tx_hash := "00000000000000ff" }

/-- A one-record burn state for the C1 witness. -/
def c1PobState : ProofOfBurn :=
  { burn_transactions := [c1BurnTx], burn_amount := 0,
    decay_factor := 19 / 20, burn_address := "1111111111111111111114oLvT2" }

set_option maxRecDepth 100000 in
set_option maxHeartbeats 2000000 in
/-- Witness for the amended C1: concrete runs of all five algorithms — a
difficulty-0 proof-of-work miner, a single-authority rotation, a
single-validator stake state, a single-record burn state and a
single-node pBFT round — each producing a block that the appropriate
post-execute state validates. -/
theorem execute_ok_implies_validate_amended_witness :
    (((ProofOfWork.new 0).execute_consensus (Block.new 2 "pay" "0" 0) 1).map
      (fun res => (ProofOfWork.new 0).validate_block res.block)) = some true ∧
    ((((ProofOfAuthority.new ["auth1"]).execute_consensus
        (Block.new 2 "pay" "0" 0)).2.toOption.map
      (fun res =>
        (((ProofOfAuthority.new ["auth1"]).execute_consensus
          (Block.new 2 "pay" "0" 0)).1).validate_block res.block)) =
      some true) ∧
    (((c1PosState.execute_consensus (fun _ => 0)
        (Block.new 3 "pay" "seed" 0)).toOption.map
      (fun res => c1PosState.validate_block res.block)) = some true) ∧
    (((c1PobState.execute_consensus (fun _ => 0)
        (Block.new 0 "pay" "seed" 0)).toOption.map
      (fun res => c1PobState.validate_block res.block)) = some true) ∧
    ((((PracticalByzantineFaultTolerance.new 1 (3 / 10)).execute_consensus
        (Block.new 2 "pay" "0" 0)).2.toOption.map
      (fun res =>
        (((PracticalByzantineFaultTolerance.new 1 (3 / 10)).execute_consensus
          (Block.new 2 "pay" "0" 0)).1).validate_block res.block))) =
      some true := by
  refine ⟨?_, ?_, ?_, ?_, ?_⟩
  · rcases hE : (ProofOfWork.new 0).execute_consensus (Block.new 2 "pay" "0" 0) 1
      with _ | res
    · exact absurd hE (by decide)
    · rw [Option.map_some']
      exact congrArg some
        (execute_ok_implies_validate_amended.1 (ProofOfWork.new 0)
          (Block.new 2 "pay" "0" 0) 1 res hE)
  · rcases hE : (ProofOfAuthority.new ["auth1"]).execute_consensus
      (Block.new 2 "pay" "0" 0) with ⟨s2, r⟩
    cases r with
    | error e =>
      have hok : (((ProofOfAuthority.new ["auth1"]).execute_consensus
          (Block.new 2 "pay" "0" 0)).2).isOk = true := by decide
      rw [hE] at hok
      simp [Except.isOk, Except.toBool] at hok
    | ok res =>
      dsimp only
      simp only [Except.toOption, Option.map_some']
      exact congrArg some
        (execute_ok_implies_validate_amended.2.1
          (ProofOfAuthority.new ["auth1"]) s2 (Block.new 2 "pay" "0" 0) res hE)
  · have hnz : (((5 : Nat) : ℚ) * (1 : ℚ) + 0 == 0) = false := by
      rw [beq_eq_false_iff_ne]
      norm_num
    have hsel : c1PosState.select_validator (fun _ => 0)
        (Block.new 3 "pay" "seed" 0) =
        some { address := "v1", stake := 5, reputation := 1 } :=
      select_validator_singleton (fun _ => 0)
        { address := "v1", stake := 5, reputation := 1 } 0 (1 / 10)
        (Block.new 3 "pay" "seed" 0) hnz
    have hE : c1PosState.execute_consensus (fun _ => 0)
        (Block.new 3 "pay" "seed" 0) = .ok
          { block := { Block.new 3 "pay" "seed" 0 with
              hash := ProofOfStake.create_block_signature
                (Block.new 3 "pay" "seed" 0)
                { address := "v1", stake := 5, reputation := 1 },
              nonce := 5 },
            energy_cost := some (1 / 1000) } := by
      unfold ProofOfStake.execute_consensus
      rw [hsel]
    rw [hE]
    simp only [Except.toOption, Option.map_some']
    exact congrArg some
      (execute_ok_implies_validate_amended.2.2.1 (fun _ => 0) c1PosState
        (Block.new 3 "pay" "seed" 0) _ (by simp [c1PosState]) hE)
  · have hnz : (burnPower (19 / 20 : ℚ) (Block.new 0 "pay" "seed" 0).index
        c1BurnTx + 0 == 0) = false := by
      rw [beq_eq_false_iff_ne]
      simp only [burnPower, txAge, c1BurnTx, Block.new]
      norm_num
    have hsel : c1PobState.select_miner (fun _ => 0)
        (Block.new 0 "pay" "seed" 0) =
        some (c1BurnTx.tx_hash,
          burnPower (19 / 20) (Block.new 0 "pay" "seed" 0).index c1BurnTx) :=
      select_miner_singleton (fun _ => 0) c1BurnTx 0 (19 / 20)
        "1111111111111111111114oLvT2" (Block.new 0 "pay" "seed" 0) hnz
    have hE : c1PobState.execute_consensus (fun _ => 0)
        (Block.new 0 "pay" "seed" 0) = .ok
          { block := { Block.new 0 "pay" "seed" 0 with
              hash := ProofOfBurn.create_burn_proof
                (Block.new 0 "pay" "seed" 0) c1BurnTx.tx_hash
                (burnPower (19 / 20) (Block.new 0 "pay" "seed" 0).index
                  c1BurnTx),
              nonce := (fromStrRadix16 (c1BurnTx.tx_hash.take 16)).getD 0 },
            energy_cost := some (1 / 200) } := by
      unfold ProofOfBurn.execute_consensus
      rw [if_neg (by simp [c1PobState])]
      rw [hsel]
    have h16 : c1BurnTx.tx_hash.startsWith
        (hexPad16 ((fromStrRadix16 (c1BurnTx.tx_hash.take 16)).getD 0)) =
        true := by
      rw [show hexPad16 ((fromStrRadix16 (c1BurnTx.tx_hash.take 16)).getD 0) =
        "00000000000000ff" from by decide]
      show String.substrEq.loop "00000000000000ff" "00000000000000ff"
        ⟨0⟩ ⟨0⟩ ⟨16⟩ = true
      exact substrEq_loop_refl _ _ _ _ rfl
    have hone : c1PobState.burn_transactions = [c1BurnTx] := rfl
    have happ := execute_ok_implies_validate_amended.2.2.2.1 (fun _ => 0)
      c1PobState (Block.new 0 "pay" "seed" 0)
      { block := { Block.new 0 "pay" "seed" 0 with
          hash := ProofOfBurn.create_burn_proof
            (Block.new 0 "pay" "seed" 0) c1BurnTx.tx_hash
            (burnPower (19 / 20) (Block.new 0 "pay" "seed" 0).index
              c1BurnTx),
          nonce := (fromStrRadix16 (c1BurnTx.tx_hash.take 16)).getD 0 },
        energy_cost := some (1 / 200) } c1BurnTx hone h16 hE
    rw [hE]
    simp only [Except.toOption, Option.map_some']
    exact congrArg some happ
  · rcases hE : (PracticalByzantineFaultTolerance.new 1 (3 / 10)).execute_consensus
      (Block.new 2 "pay" "0" 0) with ⟨s3, r⟩
    have hfst : ((PracticalByzantineFaultTolerance.new 1 (3 / 10)).execute_consensus
        (Block.new 2 "pay" "0" 0)).1 = s3 := by rw [hE]
    cases r with
    | error e =>
      have hok : (((PracticalByzantineFaultTolerance.new 1 (3 / 10)).execute_consensus
          (Block.new 2 "pay" "0" 0)).2).isOk = true := by decide
      rw [hE] at hok
      simp [Except.isOk, Except.toBool] at hok
    | ok res =>
      have hseq : ((PracticalByzantineFaultTolerance.new 1 (3 / 10)).execute_consensus
          (Block.new 2 "pay" "0" 0)).1.current_sequence = 1 := by decide
      rw [hfst] at hseq
      dsimp only
      simp only [Except.toOption, Option.map_some']
      exact congrArg some
        (execute_ok_implies_validate_amended.2.2.2.2
          (PracticalByzantineFaultTolerance.new 1 (3 / 10)) s3
          (Block.new 2 "pay" "0" 0) res hE (by omega))

/-! ## The chain-link invariant (C4) -/

/-- A one-block chain is trivially linked. -/
theorem chainLinked_singleton (b : Block) : chainLinked [b] := by
  intro i b1 b2 h1 h2
  obtain ⟨hlt, _⟩ := List.getElem?_eq_some.mp h2
  simp at hlt

/-- Appending a block whose `previous_hash` is the tail's stored hash
preserves the link invariant. -/
theorem chainLinked_append (bs : List Block) (nb : Block)
    (h : chainLinked bs)
    (hlast : ∀ lb, bs.getLast? = some lb → nb.previous_hash = lb.hash) :
    chainLinked (bs ++ [nb]) := by
  intro i b1 b2 h1 h2
  by_cases hi : i + 1 < bs.length
  · rw [List.getElem?_append_left (by omega)] at h1
    rw [List.getElem?_append_left hi] at h2
    exact h i b1 b2 h1 h2
  · by_cases hi2 : i + 1 = bs.length
    · rw [List.getElem?_append_left (by omega)] at h1
      have h2' : b2 = nb := by
        rw [hi2, List.getElem?_concat_length] at h2
        exact (Option.some.inj h2).symm
      subst h2'
      apply hlast b1
      rw [List.getLast?_eq_getElem?, ← hi2]
      simpa using h1
    · exfalso
      obtain ⟨hlt, _⟩ := List.getElem?_eq_some.mp h2
      simp only [List.length_append, List.length_cons, List.length_nil] at hlt
      omega

/-- Proof-of-work `execute_consensus` leaves `previous_hash` untouched. -/
theorem pow_execute_previous_hash (s : ProofOfWork) (b : Block)
    (fuel : Nat) (res : ConsensusResult)
    (h : s.execute_consensus b fuel = some res) :
    res.block.previous_hash = b.previous_hash := by
  unfold ProofOfWork.execute_consensus at h
  cases hm : s.mine_block b fuel with
  | none => rw [hm] at h; simp at h
  | some p =>
    rw [hm] at h
    simp only [Option.map_some', Option.some.injEq] at h
    subst h; rfl

/-- Proof-of-stake `execute_consensus` leaves `previous_hash` untouched. -/
theorem pos_execute_previous_hash (draw : String → ℚ)
    (s : ProofOfStake) (b : Block) (res : ConsensusResult)
    (h : s.execute_consensus draw b = .ok res) :
    res.block.previous_hash = b.previous_hash := by
  unfold ProofOfStake.execute_consensus at h
  cases hv : s.select_validator draw b with
  | none => rw [hv] at h; simp at h
  | some v =>
    rw [hv] at h
    simp only [Except.ok.injEq] at h
    subst h; rfl

/-- Proof-of-history `execute_consensus` leaves `previous_hash`
untouched. -/
theorem poh_execute_previous_hash (s : ProofOfHistory) (b : Block)
    (s2 : ProofOfHistory) (res : ConsensusResult)
    (h : s.execute_consensus b = (s2, .ok res)) :
    res.block.previous_hash = b.previous_hash := by
  unfold ProofOfHistory.execute_consensus at h
  simp only [Prod.mk.injEq, Except.ok.injEq] at h
  obtain ⟨_, h2⟩ := h
  subst h2; rfl

/-- Proof-of-authority `execute_consensus` leaves `previous_hash`
untouched. -/
theorem poa_execute_previous_hash (s : ProofOfAuthority)
    (b : Block) (s2 : ProofOfAuthority) (res : ConsensusResult)
    (h : s.execute_consensus b = (s2, .ok res)) :
    res.block.previous_hash = b.previous_hash := by
  unfold ProofOfAuthority.execute_consensus at h
  cases ha : s.get_current_authority with
  | none => rw [ha] at h; simp [Prod.ext_iff] at h
  | some a =>
    rw [ha] at h
    simp only [Prod.mk.injEq, Except.ok.injEq] at h
    obtain ⟨_, h2⟩ := h
    subst h2; rfl

/-- Proof-of-burn `execute_consensus` leaves `previous_hash` untouched. -/
theorem pob_execute_previous_hash (draw : String → ℚ)
    (s : ProofOfBurn) (b : Block) (res : ConsensusResult)
    (h : s.execute_consensus draw b = .ok res) :
    res.block.previous_hash = b.previous_hash := by
  unfold ProofOfBurn.execute_consensus at h
  by_cases he : s.burn_transactions.isEmpty
  · rw [if_pos he] at h; simp at h
  · rw [if_neg he] at h
    cases hm : s.select_miner draw b with
    | none => rw [hm] at h; simp at h
    | some sel =>
      rw [hm] at h
      simp only [Except.ok.injEq] at h
      subst h; rfl

/-- pBFT `execute_consensus` leaves `previous_hash` untouched. -/
theorem pbft_execute_previous_hash
    (s : PracticalByzantineFaultTolerance) (b : Block)
    (s2 : PracticalByzantineFaultTolerance) (res : ConsensusResult)
    (h : s.execute_consensus b = (s2, .ok res)) :
    res.block.previous_hash = b.previous_hash := by
  unfold PracticalByzantineFaultTolerance.execute_consensus at h
  by_cases hne : s.nodes.isEmpty
  · rw [if_pos hne] at h; simp [Prod.ext_iff] at h
  · rw [if_neg hne] at h
    by_cases hh : (s.get_honest_nodes).length < s.node_count * 2 / 3 + 1
    · rw [if_pos hh] at h; simp [Prod.ext_iff] at h
    · rw [if_neg hh] at h
      rcases hr : s.execute_pbft_consensus b with ⟨s1, r⟩
      rw [hr] at h
      cases r with
      | error e => simp [Prod.ext_iff] at h
      | ok reached =>
        cases reached with
        | false => simp [Prod.ext_iff] at h
        | true =>
          simp only [Prod.mk.injEq, Except.ok.injEq] at h
          obtain ⟨_, h2⟩ := h
          subst h2; rfl

/-- Every embedded algorithm's dispatched `execute_consensus` leaves the
block's `previous_hash` untouched. -/
theorem algo_execute_previous_hash (draw : String → ℚ)
    (fuel : Nat) (a : ConsensusAlgorithm) (b : Block)
    (a2 : ConsensusAlgorithm) (res : ConsensusResult)
    (h : a.execute_consensus draw fuel b = some (a2, .ok res)) :
    res.block.previous_hash = b.previous_hash := by
  cases a with
  | pow s =>
    simp only [ConsensusAlgorithm.execute_consensus] at h
    cases hm : s.execute_consensus b fuel with
    | none => rw [hm] at h; simp at h
    | some r0 =>
      rw [hm] at h
      simp only [Option.map_some', Option.some.injEq, Prod.mk.injEq,
        Except.ok.injEq] at h
      obtain ⟨_, h2⟩ := h
      subst h2
      exact pow_execute_previous_hash s b fuel r0 hm
  | pos s =>
    simp only [ConsensusAlgorithm.execute_consensus, Option.some.injEq,
      Prod.mk.injEq] at h
    exact pos_execute_previous_hash draw s b res h.2
  | poh s =>
    simp only [ConsensusAlgorithm.execute_consensus, Option.some.injEq,
      Prod.mk.injEq] at h
    refine poh_execute_previous_hash s b
      (s.execute_consensus b).1 res ?_
    have hpair : s.execute_consensus b =
        ((s.execute_consensus b).1, (s.execute_consensus b).2) := rfl
    rw [hpair, h.2]
  | poa s =>
    simp only [ConsensusAlgorithm.execute_consensus, Option.some.injEq,
      Prod.mk.injEq] at h
    refine poa_execute_previous_hash s b
      (s.execute_consensus b).1 res ?_
    have hpair : s.execute_consensus b =
        ((s.execute_consensus b).1, (s.execute_consensus b).2) := rfl
    rw [hpair, h.2]
  | pob s =>
    simp only [ConsensusAlgorithm.execute_consensus, Option.some.injEq,
      Prod.mk.injEq] at h
    exact pob_execute_previous_hash draw s b res h.2
  | pbft s =>
    simp only [ConsensusAlgorithm.execute_consensus, Option.some.injEq,
      Prod.mk.injEq] at h
    refine pbft_execute_previous_hash s b
      (s.execute_consensus b).1 res ?_
    have hpair : s.execute_consensus b =
        ((s.execute_consensus b).1, (s.execute_consensus b).2) := rfl
    rw [hpair, h.2]

/-- One `add_block` call preserves the chain-link invariant, whether it
appends or fails. -/
theorem add_block_chainLinked (draw : String → ℚ) (fuel : Nat)
    (c : Blockchain) (data : String) (ts : Int)
    (c2 : Blockchain) (r : Except String ConsensusResult)
    (h : c.add_block draw fuel data ts = some (c2, r))
    (hc : chainLinked c.blocks) : chainLinked c2.blocks := by
  unfold Blockchain.add_block at h
  cases hlast : c.blocks.getLast? with
  | none =>
    rw [hlast] at h
    simp only [Option.some.injEq, Prod.mk.injEq] at h
    rw [← h.1]
    exact hc
  | some lastB =>
    rw [hlast] at h
    cases halg : c.consensus_algorithm with
    | none =>
      rw [halg] at h
      simp only [Option.some.injEq, Prod.mk.injEq] at h
      rw [← h.1]
      exact hc
    | some algo =>
      rw [halg] at h
      dsimp only at h
      cases hex : algo.execute_consensus draw fuel
          (Block.new c.blocks.length data lastB.hash ts) with
      | none => rw [hex] at h; simp at h
      | some p =>
        rw [hex] at h
        simp only [Option.map_some', Option.some.injEq] at h
        rcases p with ⟨a2, r2⟩
        cases r2 with
        | error e =>
          simp only [Prod.mk.injEq] at h
          rw [← h.1]
          exact hc
        | ok result =>
          simp only [Prod.mk.injEq] at h
          rw [← h.1]
          apply chainLinked_append c.blocks result.block hc
          intro lb hlb
          rw [hlast, Option.some.injEq] at hlb
          subst hlb
          exact algo_execute_previous_hash draw fuel algo
            (Block.new c.blocks.length data lastB.hash ts) a2 result hex

/-- Any sequence of `add_block` calls preserves the invariant. -/
theorem add_blocks_chainLinked (draw : String → ℚ) (fuel : Nat) :
    ∀ (inputs : List (String × Int)) (c c2 : Blockchain),
      c.add_blocks draw fuel inputs = some c2 →
      chainLinked c.blocks → chainLinked c2.blocks := by
  intro inputs
  induction inputs with
  | nil =>
    intro c c2 h hc
    simp only [Blockchain.add_blocks, Option.some.injEq] at h
    rw [← h]
    exact hc
  | cons q rest ih =>
    intro c c2 h hc
    simp only [Blockchain.add_blocks] at h
    cases hab : c.add_block draw fuel q.1 q.2 with
    | none => rw [hab] at h; simp at h
    | some p =>
      rw [hab, Option.some_bind] at h
      exact ih p.1 c2 h
        (add_block_chainLinked draw fuel c q.1 q.2 p.1 p.2
          (by rw [hab]) hc)

/-- The factory never fails on an embedded variant, as in the source. -/
theorem ConsensusFactory.create_consensus_ok (ct : ConsensusType) :
    ∀ e, ConsensusFactory.create_consensus ct ≠ .error e := by
  intro e
  cases ct <;> simp [ConsensusFactory.create_consensus]

/-- C4.  Every blockchain built by `new_with_consensus` followed by any
number of `add_block` calls (successful or failed — a failure appends
nothing) satisfies the chain-link invariant: each block after the first
carries the stored hash of its predecessor in `previous_hash`. -/
theorem chain_link_invariant (draw : String → ℚ) (fuel : Nat)
    (ct : ConsensusType) (ts : Int) (inputs : List (String × Int))
    (c0 c : Blockchain)
    (h0 : Blockchain.new_with_consensus draw fuel ct ts = some (.ok c0))
    (h1 : c0.add_blocks draw fuel inputs = some c) :
    chainLinked c.blocks := by
  apply add_blocks_chainLinked draw fuel inputs c0 c h1
  unfold Blockchain.new_with_consensus at h0
  rcases hF : ConsensusFactory.create_consensus ct with e | algo
  · exact absurd hF (ConsensusFactory.create_consensus_ok ct e)
  · rw [hF] at h0
    dsimp only at h0
    cases hex : algo.execute_consensus draw fuel
        (Block.new 0 "Genesis Block" "0" ts) with
    | none => rw [hex] at h0; simp at h0
    | some p =>
      rw [hex] at h0
      simp only [Option.map_some', Option.some.injEq, Except.ok.injEq] at h0
      rw [← h0]
      exact chainLinked_singleton _

/-- The genesis block a difficulty-0 proof-of-work `new_with_consensus`
mines at timestamp 0. -/
def c4Genesis : Block :=
  ⟨0, 0, "Genesis Block", "0",
   "f1ed4aecd2aa7e89e0b34dfe4952ad8fca5df2b6d079a345dbf88bc831b55b07", 0, 0⟩

/-- The block appended on top of `c4Genesis` with payload `"payload"`. -/
def c4Second : Block :=
  ⟨1, 1, "payload",
   "f1ed4aecd2aa7e89e0b34dfe4952ad8fca5df2b6d079a345dbf88bc831b55b07",
   "43ced8e7592e84da6b5c14e6087e2073a461208329745b4b99f4afdb1e3efc81", 0, 0⟩

/-- The concrete one-block chain `new_with_consensus` builds. -/
def c4Chain0 : Blockchain :=
  ⟨[c4Genesis], .proofOfWork 0, ⟨1, 0⟩, 1, some (.pow ⟨0, 60⟩)⟩

/-- `c4Chain0` after one successful `add_block`. -/
def c4Chain1 : Blockchain :=
  ⟨[c4Genesis, c4Second], .proofOfWork 0, ⟨2, 0⟩, 1, some (.pow ⟨0, 60⟩)⟩

set_option maxRecDepth 100000 in
/-- Witness for C4: a concrete difficulty-0 proof-of-work chain with one
appended block satisfies the invariant. -/
theorem chain_link_invariant_witness :
    Blockchain.new_with_consensus (fun _ => 0) 1 (.proofOfWork 0) 0 =
      some (.ok c4Chain0) ∧
    c4Chain0.add_blocks (fun _ => 0) 1 [("payload", 1)] = some c4Chain1 ∧
    chainLinked c4Chain1.blocks :=
  ⟨by decide, by decide,
   chain_link_invariant (fun _ => 0) 1 (.proofOfWork 0) 0 [("payload", 1)]
     c4Chain0 c4Chain1 (by decide) (by decide)⟩

/-! ## `is_valid` and the genesis exemption (C5) -/

/-- The validation walk equals the indexed statement: every block after
the head is linked to its predecessor and passes the current algorithm's
validation. -/
theorem chainCheck_iff (algo : ConsensusAlgorithm) :
    ∀ (rest : List Block) (prev : Block),
      (chainCheck algo prev rest = true ↔
        ∀ i b1 b2, (prev :: rest)[i]? = some b1 →
          (prev :: rest)[i + 1]? = some b2 →
          b2.previous_hash = b1.hash ∧ algo.validate_block b2 = true) := by
  intro rest
  induction rest with
  | nil =>
    intro prev
    constructor
    · intro _ i b1 b2 _ h2
      obtain ⟨hl, _⟩ := List.getElem?_eq_some.mp h2
      simp at hl
    · intro _
      rfl
  | cons cur rest ih =>
    intro prev
    unfold chainCheck
    constructor
    · intro h i b1 b2 h1 h2
      by_cases hlink : (cur.previous_hash != prev.hash) = true
      · rw [if_pos hlink] at h; simp at h
      · rw [if_neg hlink] at h
        by_cases hval : (!algo.validate_block cur) = true
        · rw [if_pos hval] at h; simp at h
        · rw [if_neg hval] at h
          have hlink' : cur.previous_hash = prev.hash := by
            simpa using hlink
          have hval' : algo.validate_block cur = true := by
            simpa using hval
          cases i with
          | zero =>
            simp only [List.getElem?_cons_zero, Option.some.injEq] at h1
            simp only [List.getElem?_cons_succ, List.getElem?_cons_zero,
              Option.some.injEq] at h2
            subst h1; subst h2
            exact ⟨hlink', hval'⟩
          | succ k =>
            rw [List.getElem?_cons_succ] at h1 h2
            exact (ih cur).mp h k b1 b2 h1 h2
    · intro h
      have h0 := h 0 prev cur (by simp) (by simp)
      rw [if_neg (by simp [h0.1]), if_neg (by simp [h0.2])]
      apply (ih cur).mpr
      intro i b1 b2 h1 h2
      exact h (i + 1) b1 b2 (by rw [List.getElem?_cons_succ]; exact h1)
        (by rw [List.getElem?_cons_succ]; exact h2)

/-- C5 as amended.  With an active algorithm, `is_valid()` returns true
iff every block *at index 1 or later* carries its predecessor's stored
hash and passes the current algorithm's `validate_block`; the genesis
block (index 0) is exempted — the loop starts at 1, so `validate_block`
is never invoked on it. -/
theorem is_valid_iff_checks_from_index_one (c : Blockchain)
    (algo : ConsensusAlgorithm)
    (halgo : c.consensus_algorithm = some algo) :
    (c.is_valid = true ↔
      ∀ i b1 b2, c.blocks[i]? = some b1 → c.blocks[i + 1]? = some b2 →
        b2.previous_hash = b1.hash ∧ algo.validate_block b2 = true) := by
  unfold Blockchain.is_valid
  rw [halgo]
  cases hbs : c.blocks with
  | nil =>
    constructor
    · intro _ i b1 b2 h1 _
      simp at h1
    · intro _
      rfl
  | cons b0 rest =>
    exact chainCheck_iff algo rest b0

/-- The chain a proof-of-stake `new_with_consensus` (no validators, so
the genesis consensus fails and is swallowed) builds at timestamp 0. -/
def c5Chain : Blockchain :=
  ⟨[Block.new 0 "Genesis Block" "0" 0], .proofOfStake 100, ⟨1, 0⟩, 1,
   some (.pos (ProofOfStake.new 100))⟩

/-- C5 counterexample: a reachable chain whose genesis block fails the
active algorithm's `validate_block`, while `is_valid()` still returns
true — the loop from index 1 never submits the genesis block to
validation, so a block *is* exempted. -/
theorem is_valid_skips_genesis_validation :
    Blockchain.new_with_consensus (fun _ => 0) 0 (.proofOfStake 100) 0 =
      some (.ok c5Chain) ∧
    c5Chain.is_valid = true ∧
    (c5Chain.blocks.map
      (fun b => ConsensusAlgorithm.validate_block (.pos (ProofOfStake.new 100)) b)) =
      [false] :=
  ⟨rfl, rfl, rfl⟩

/-- Witness for the amended C5 on the concrete chain: the ← direction of
the iff establishes `is_valid` from the (vacuous, single-block) indexed
property. -/
theorem is_valid_iff_checks_from_index_one_witness :
    c5Chain.is_valid = true :=
  (is_valid_iff_checks_from_index_one c5Chain (.pos (ProofOfStake.new 100))
      rfl).mpr
    (fun _ b1 b2 _ h2 => by
      obtain ⟨hl, _⟩ := List.getElem?_eq_some.mp h2
      simp [c5Chain] at hl)

/-! ## Genesis tolerance and add_block failure accounting (C6) -/

/-- C6.  `new_with_consensus` still returns a constructed blockchain
containing the (unproven) genesis block when the genesis consensus
execution fails; whereas for any later block, when the active
algorithm's `execute_consensus` fails, `add_block` returns an error, the
block list is unchanged, and `consensus_failures` grows by exactly one
(the mutated algorithm state is kept, as under `&mut` dispatch). -/
theorem genesis_failure_tolerated_add_block_failure_fatal :
    (∀ (draw : String → ℚ) (fuel : Nat) (ct : ConsensusType) (ts : Int)
        (ga a2 : ConsensusAlgorithm) (e : String),
      ConsensusFactory.create_consensus ct = .ok ga →
      ga.execute_consensus draw fuel (Block.new 0 "Genesis Block" "0" ts) =
        some (a2, .error e) →
      Blockchain.new_with_consensus draw fuel ct ts =
        some (.ok ⟨[Block.new 0 "Genesis Block" "0" ts], ct, ⟨1, 0⟩, 1,
          some ga⟩)) ∧
    (∀ (draw : String → ℚ) (fuel : Nat) (c : Blockchain) (data : String)
        (ts : Int) (lastB : Block) (algo a2 : ConsensusAlgorithm) (e : String),
      c.blocks.getLast? = some lastB →
      c.consensus_algorithm = some algo →
      algo.execute_consensus draw fuel
        (Block.new c.blocks.length data lastB.hash ts) = some (a2, .error e) →
      c.add_block draw fuel data ts =
        some ({ c with consensus_algorithm := some a2,
                       consensus_stats := { c.consensus_stats with
                         consensus_failures :=
                           c.consensus_stats.consensus_failures + 1 } },
              .error ("Consensus failed: " ++ e))) := by
  constructor
  · intro draw fuel ct ts ga a2 e hF hex
    unfold Blockchain.new_with_consensus
    rw [hF]
    dsimp only
    rw [hex]
    rfl
  · intro draw fuel c data ts lastB algo a2 e hlast halgo hex
    unfold Blockchain.add_block
    rw [hlast, halgo]
    dsimp only
    rw [hex]
    rfl

/-- The proof-of-stake chain of the C6 witness (genesis consensus failed:
no validators). -/
def c6Chain : Blockchain :=
  ⟨[Block.new 0 "Genesis Block" "0" 0], .proofOfStake 100, ⟨1, 0⟩, 1,
   some (.pos (ProofOfStake.new 100))⟩

/-- Witness for C6: with no validators, the stake algorithm fails both
the genesis consensus (swallowed — the chain is still built) and a later
`add_block` (fatal — error returned, nothing appended, one failure
counted). -/
theorem genesis_failure_tolerated_add_block_failure_fatal_witness :
    Blockchain.new_with_consensus (fun _ => 0) 0 (.proofOfStake 100) 0 =
      some (.ok ⟨[Block.new 0 "Genesis Block" "0" 0], .proofOfStake 100,
        ⟨1, 0⟩, 1, some (.pos (ProofOfStake.new 100))⟩) ∧
    c6Chain.add_block (fun _ => 0) 0 "tx" 1 =
      some ({ c6Chain with
                consensus_algorithm := some (.pos (ProofOfStake.new 100)),
                consensus_stats := { c6Chain.consensus_stats with
                  consensus_failures :=
                    c6Chain.consensus_stats.consensus_failures + 1 } },
            .error ("Consensus failed: " ++ "No validators available")) :=
  ⟨genesis_failure_tolerated_add_block_failure_fatal.1 (fun _ => 0) 0
      (.proofOfStake 100) 0 (.pos (ProofOfStake.new 100))
      (.pos (ProofOfStake.new 100)) "No validators available" rfl rfl,
   genesis_failure_tolerated_add_block_failure_fatal.2 (fun _ => 0) 0 c6Chain
      "tx" 1 (Block.new 0 "Genesis Block" "0" 0) (.pos (ProofOfStake.new 100))
      (.pos (ProofOfStake.new 100)) "No validators available" rfl rfl rfl⟩
